import Mathlib

/-!
# Relay finder (`p2p/host/autorelay/relay_finder.go`) and dial errors (`p2p/net/swarm/dial_error.go`)

A shallow embedding of the relay finder's tables and of the operations that mutate them,
and of `DialError.recordErr`.

Conventions of the embedding:
* `peer.ID` and `ma.Multiaddr` are opaque identifiers (natural numbers);
* `time.Time` is an integer (nanoseconds since the zero time) and `Time.Add` is addition;
  `time.Duration` is an `int64`: the arithmetic of `moveCandidateToBackoff` wraps through
  `wrap64`, and the durations of the configuration are taken to be `int64` values;
* `int` is `Int`: the counters (`numAttempts`, `Skipped`, the lengths) only grow by one from
  zero and their overflow is not modelled;
* a Go map is a list of key/value pairs, written only through `mapSet` and `mapDelete`;
* the goroutines are interleaved at the granularity of `action`: the arrival of a peer in
  `findNodes` (with the relay check that opens `handleNewNode`), the end of a probe (the insert
  that closes `handleNewNode`), one `select` of the supervisor loop (for a new-candidate or
  boot-delay event: up to the read of `len(rf.relays)` that opens `handleNewCandidate`), the
  rest of `handleNewCandidate` under the candidate lock, one iteration of the loop of a
  reservation pass, and a call of `relayAddrs`;
* the results of external calls (`Reserve`, `Connect`, `tryNode`, `rand.Intn`, `rand.Shuffle`,
  `time.Now`) are arguments of these functions.
-/

namespace Swarm

/-- The type `ma.Multiaddr`, opaque. -/
abbrev Multiaddr := Nat

/-- The type `peer.ID`, opaque. -/
abbrev ID := Nat

/-- An `error` value, opaque. -/
abbrev Error := Nat

/-- The constant `maxDialDialErrors`: the maximum number of dial errors we record. -/
def maxDialDialErrors : Nat := 16

/-- The struct `TransportError`. -/
structure TransportError where
  Address : Multiaddr
  Cause : Error
  deriving DecidableEq, Repr

/-- The struct `DialError`. -/
structure DialError where
  Peer : ID
  DialErrors : List TransportError
  Cause : Option Error
  Skipped : Int
  deriving DecidableEq, Repr

/-- The method `(e *DialError) recordErr(addr, err)`. -/
def DialError.recordErr (e : DialError) (addr : Multiaddr) (err : Error) : DialError :=
  if e.DialErrors.length ≥ maxDialDialErrors then
    { e with Skipped := e.Skipped + 1 }
  else
    { e with DialErrors := e.DialErrors ++ [{ Address := addr, Cause := err }] }

/-- A sequence of `recordErr` calls, in call order. -/
def recordAll (e : DialError) (calls : List (Multiaddr × Error)) : DialError :=
  calls.foldl (fun acc c => acc.recordErr c.1 c.2) e

end Swarm

namespace Autorelay

/-- The type `peer.ID`, opaque. -/
abbrev ID := Nat

/-- The type `ma.Multiaddr`, opaque. -/
abbrev Multiaddr := Nat

/-- The constant `rsvpRefreshInterval = time.Minute`. -/
def rsvpRefreshInterval : Int := 60 * 1000000000

/-- The constant `rsvpExpirationSlack = 2 * time.Minute`. -/
def rsvpExpirationSlack : Int := 2 * (60 * 1000000000)

/-- The lifetime `30 * time.Second` of the cached address set in `relayAddrs`. -/
def cachedAddrsLifetime : Int := 30 * 1000000000

/-- The struct `peer.AddrInfo`. -/
structure AddrInfo where
  ID : ID
  Addrs : List Multiaddr
  deriving DecidableEq, Repr

/-- The struct `circuitv2.Reservation`: the expiration and the fields the relay finder does not
interpret. -/
structure Reservation where
  Expiration : Int
  Addrs : List Multiaddr
  Voucher : Nat
  deriving DecidableEq, Repr

/-- Modelled from the spec: the struct `config` is declared outside `relay_finder.go`; these are
the fields `relay_finder.go` reads, with the meaning given in the configuration table. -/
structure config where
  staticRelays : List AddrInfo
  minCandidates : Int
  maxCandidates : Int
  bootDelay : Int
  backoff : Int
  desiredRelays : Int
  maxAttempts : Int
  deriving DecidableEq, Repr

/-- The struct `candidate`. -/
structure candidate where
  added : Int
  ai : AddrInfo
  numAttempts : Int
  deriving DecidableEq, Repr

/-- The struct `candidateOnBackoff`: an embedded `candidate` and the time of the next attempt. -/
structure candidateOnBackoff where
  toCandidate : candidate
  nextConnAttempt : Int
  deriving DecidableEq, Repr

/-- A `*candidate`: the allocation number of the object (the pointer's identity) together with
the current contents of the object. The only write through a shared pointer is
`cand.numAttempts++` in `handleNewCandidate`; `bumpAttempts` applies it to every alias that an
in-flight reservation pass holds. -/
structure candidatePtr where
  addr : Nat
  obj : candidate
  deriving DecidableEq, Repr

/-- The list `m` seen as a Go map: `_, ok := m[k]`. -/
def mapHas {β : Type} (m : List (ID × β)) (k : ID) : Bool :=
  m.any (fun e => e.1 == k)

/-- The list `m` seen as a Go map: `m[k]`. -/
def mapGet {β : Type} (m : List (ID × β)) (k : ID) : Option β :=
  (m.find? (fun e => e.1 == k)).map Prod.snd

/-- The list `m` seen as a Go map: `delete(m, k)`. -/
def mapDelete {β : Type} (m : List (ID × β)) (k : ID) : List (ID × β) :=
  m.filter (fun e => e.1 != k)

/-- The list `m` seen as a Go map: `m[k] = v`. -/
def mapSet {β : Type} (m : List (ID × β)) (k : ID) (v : β) : List (ID × β) :=
  mapDelete m k ++ [(k, v)]

/-- The keys of a map. -/
def mapKeys {β : Type} (m : List (ID × β)) : List ID :=
  m.map Prod.fst

/-- The struct `relayFinder`: its tables, the two capacity-one notification channels (a `Bool`
says whether the channel holds a value), and what the finder did to its collaborators: the peers
the connection manager protects under the tag `autorelay`, and the number of
`SignalAddressChange` calls. `allocated` counts the `candidate` objects created so far,
`probing` lists the `handleNewNode` goroutines that `findNodes` started and that have not
returned, each with the value `relayInUse` it read when it started, `passes` holds, for
every goroutine started by `handleNewCandidate` that has not returned, the part of its
`candidates` slice the loop has not reached yet, and `deciding` is `some n` while the
supervisor is inside `handleNewCandidate`, after it read `numRelays := len(rf.relays)` as `n`
under the relay lock and before it takes the candidate lock. -/
structure relayFinder where
  bootTime : Int
  candidateFound : Bool
  candidates : List (ID × candidatePtr)
  candidatesOnBackoff : List candidateOnBackoff
  relayUpdated : Bool
  relays : List (ID × Reservation)
  cachedAddrs : Option (List Multiaddr)
  cachedAddrsExpiry : Int
  protectedPeers : List ID
  addressChanges : Nat
  allocated : Nat
  probing : List (AddrInfo × Bool)
  passes : List (List candidatePtr)
  deciding : Option Nat
  deriving DecidableEq, Repr

/-- The function `newRelayFinder`, called at time `now`. -/
def newRelayFinder (now : Int) : relayFinder :=
  { bootTime := now
    candidateFound := false
    candidates := []
    candidatesOnBackoff := []
    relayUpdated := false
    relays := []
    cachedAddrs := none
    cachedAddrsExpiry := 0
    protectedPeers := []
    addressChanges := 0
    allocated := 0
    probing := []
    passes := []
    deciding := none }

/-- The call `ConnManager().Protect(p, autorelayTag)` on the set of protected peers. -/
def Protect (ps : List ID) (p : ID) : List ID :=
  if p ∈ ps then ps else ps ++ [p]

/-- The call `ConnManager().Unprotect(p, autorelayTag)` on the set of protected peers. -/
def Unprotect (ps : List ID) (p : ID) : List ID :=
  ps.filter (fun q => q != p)

/-- The method `usingRelay`. -/
def usingRelay (rf : relayFinder) (p : ID) : Bool :=
  mapHas rf.relays p

/-- The method `notifyNewCandidate`: a non-blocking send on `candidateFound`. -/
def notifyNewCandidate (rf : relayFinder) : relayFinder :=
  { rf with candidateFound := true }

/-- The body of `findNodes` for one peer read from `peerChan`: the peer is skipped when the
candidate table already holds `maxCandidates` entries, and otherwise a `handleNewNode` goroutine
is started for it; the goroutine opens with `relayInUse := rf.usingRelay(pi.ID)`, which is
read here. -/
def findNodes (conf : config) (pi : AddrInfo) (rf : relayFinder) : relayFinder :=
  if (rf.candidates.length : Int) ≥ conf.maxCandidates then rf
  else { rf with probing := rf.probing ++ [(pi, usingRelay rf pi.ID)] }

/-- The method `handleNewNode` from its first `if` on: `relayInUse` is the value the goroutine
read when it started, `tryNodeOk` says whether `tryNode` returned no error, and `rf` is the
state when the probe is over. -/
def handleNewNode (conf : config) (pi : AddrInfo) (relayInUse tryNodeOk : Bool)
    (rf : relayFinder) : relayFinder :=
  if relayInUse then rf
  else if !tryNodeOk then rf
  else if (rf.candidates.length : Int) > conf.maxCandidates then rf
  else
    notifyNewCandidate
      { rf with
        candidates := mapSet rf.candidates pi.ID
          { addr := rf.allocated, obj := { added := 0, ai := pi, numAttempts := 0 } }
        allocated := rf.allocated + 1 }

/-- The method `selectCandidates`: the values of the candidate table in the order `order` that
`rand.Shuffle` produced; `none` when `order` is not a permutation of the values. -/
def selectCandidates (rf : relayFinder) (order : List candidatePtr) : Option (List candidatePtr) :=
  if order.isPerm (rf.candidates.map Prod.snd) then some order else none

/-- The startup conditions under which `handleNewCandidate` returns without selecting
candidates: with static relays, while `peerChan` still holds entries, fewer than
`minCandidates` candidates are known and the boot delay has not elapsed; without static
relays, while there is no reservation, fewer than `minCandidates` candidates are known and the
boot delay has not elapsed. `now - rf.bootTime` is `time.Since(rf.bootTime)`. -/
def waitsForQuorum (conf : config) (now : Int) (peerChanLen : Nat) (rf : relayFinder) : Bool :=
  if conf.staticRelays.length ≠ 0 then
    decide (peerChanLen > 0 ∧ (rf.candidates.length : Int) < conf.minCandidates
      ∧ now - rf.bootTime < conf.bootDelay)
  else
    decide (rf.relays.length = 0 ∧ (rf.candidates.length : Int) < conf.minCandidates
      ∧ now - rf.bootTime < conf.bootDelay)

/-- The part of `handleNewCandidate` that runs on the supervisor: the three early returns, then
the goroutine is started over the selected candidates. `numRelays` is the value of
`len(rf.relays)` that the function read under the relay lock before it took the candidate
lock, and `rf` is the state once the candidate lock is held; `now` is `time.Now()` and
`peerChanLen` is `len(rf.peerChan)`; `none` when `order` is not what `selectCandidates` can
return. -/
def handleNewCandidate (conf : config) (numRelays : Nat) (now : Int) (peerChanLen : Nat)
    (order : List candidatePtr) (rf : relayFinder) : Option relayFinder :=
  if (numRelays : Int) = conf.desiredRelays then some rf
  else if rf.candidates.length = 0 then some rf
  else if waitsForQuorum conf now peerChanLen rf then some rf
  else
    match selectCandidates rf order with
    | none => none
    | some candidates => some { rf with passes := rf.passes ++ [candidates] }

/-- An `int64` result: the integer `x` wrapped into the range from `-2^63` to `2^63 - 1`. -/
def wrap64 (x : Int) : Int :=
  (x + 9223372036854775808) % 18446744073709551616 - 9223372036854775808

/-- The method `moveCandidateToBackoff`, called at time `now` with the draw `r` of
`rand.Intn(8)`. The shift `1 << (cand.numAttempts - 1)` panics on a negative count (`none`);
the shift and the two products are `time.Duration` operations and wrap, and the division
truncates towards zero. -/
def moveCandidateToBackoff (conf : config) (now : Int) (r : Fin 8) (cand : candidate)
    (rf : relayFinder) : Option relayFinder :=
  if (rf.candidatesOnBackoff.length : Int) ≥ conf.maxCandidates then some rf
  else if cand.numAttempts - 1 < 0 then none
  else
    let backoff : Int := wrap64 (conf.backoff * wrap64 (2 ^ (cand.numAttempts - 1).toNat))
    let backoff : Int := Int.tdiv (wrap64 (backoff * (16 + (r.val : Int)))) 20
    some { rf with
      candidatesOnBackoff := rf.candidatesOnBackoff ++
        [{ toCandidate := cand, nextConnAttempt := now + backoff }] }

/-- The write `cand.numAttempts++` seen through one pointer: the object at `addr` is updated. -/
def bumpAttempts (addr : Nat) (c : candidatePtr) : candidatePtr :=
  if c.addr = addr then { c with obj := { c.obj with numAttempts := c.obj.numAttempts + 1 } }
  else c

/-- What the external calls of one iteration of the loop in `handleNewCandidate` returned:
the peer was not connected and `Connect` failed; `Reserve` failed (with `time.Now()` and the
draw of `rand.Intn(8)` used if the candidate goes on backoff); `Reserve` succeeded. -/
inductive attempt where
  | reconnectFailed
  | reserveFailed (now : Int) (r : Fin 8)
  | reserved (rsvp : Reservation)
  deriving DecidableEq, Repr

/-- The pass `i` goes on with the candidates `rest` (`continue`); a goroutine whose loop has no
candidate left returns. -/
def continuePass (rf : relayFinder) (i : Nat) (rest : List candidatePtr) : relayFinder :=
  if rest = [] then { rf with passes := rf.passes.eraseIdx i }
  else { rf with passes := rf.passes.set i rest }

/-- The pass `i` leaves its loop (`break`) and the goroutine returns. -/
def breakPass (rf : relayFinder) (i : Nat) : relayFinder :=
  { rf with passes := rf.passes.eraseIdx i }

/-- One iteration of the loop `for _, cand := range candidates` of the goroutine started by
`handleNewCandidate`, for the in-flight pass number `i`; `none` when there is no such pass.
On a failed `Reserve` the attempt count is incremented through the pointer, the peer is deleted
from the candidate table (an object is in the table only under its own peer id, so no table
entry keeps the incremented object) and, below `maxAttempts`, it moves to the backoff queue. -/
def passIteration (conf : config) (i : Nat) (out : attempt) (rf : relayFinder) :
    Option relayFinder :=
  match rf.passes.get? i with
  | some (cand :: rest) =>
    let id := cand.obj.ai.ID
    match out with
    | .reconnectFailed =>
      some (continuePass { rf with candidates := mapDelete rf.candidates cand.obj.ai.ID } i rest)
    | .reserveFailed now r =>
      let cand1 : candidate := { cand.obj with numAttempts := cand.obj.numAttempts + 1 }
      let rf1 := { rf with
        passes := rf.passes.map (List.map (bumpAttempts cand.addr))
        candidates := mapDelete rf.candidates id }
      let rest1 := rest.map (bumpAttempts cand.addr)
      if cand1.numAttempts ≥ conf.maxAttempts then some (continuePass rf1 i rest1)
      else (moveCandidateToBackoff conf now r cand1 rf1).map (fun rf2 => continuePass rf2 i rest1)
    | .reserved rsvp =>
      let rf1 := { rf with
        relays := mapSet rf.relays id rsvp
        protectedPeers := Protect rf.protectedPeers id
        relayUpdated := true }
      let numRelays := rf1.relays.length
      if (numRelays : Int) ≥ conf.desiredRelays then some (breakPass rf1 i)
      else some (continuePass rf1 i rest)
  | _ => none

/-- The loop of `checkForCandidatesOnBackoff` over `queue`, the slice the `range` clause
evaluated once on entry; every iteration that does not `break` re-slices the field
`candidatesOnBackoff` by `[1:]`. -/
def checkLoop (conf : config) (now : Int) : List candidateOnBackoff → relayFinder → relayFinder
  | [], rf => rf
  | cand :: queue, rf =>
    if cand.nextConnAttempt > now then rf
    else
      let rf1 :=
        if (rf.candidates.length : Int) ≥ conf.maxCandidates then rf
        else
          notifyNewCandidate
            { rf with
              candidates := mapSet rf.candidates cand.toCandidate.ai.ID
                { addr := rf.allocated
                  obj := { added := cand.toCandidate.added, ai := cand.toCandidate.ai,
                           numAttempts := cand.toCandidate.numAttempts } }
              allocated := rf.allocated + 1 }
      checkLoop conf now queue { rf1 with candidatesOnBackoff := rf1.candidatesOnBackoff.drop 1 }

/-- The method `checkForCandidatesOnBackoff`. -/
def checkForCandidatesOnBackoff (conf : config) (now : Int) (rf : relayFinder) : relayFinder :=
  checkLoop conf now rf.candidatesOnBackoff rf

/-- The method `refreshRelayReservation` for the peer `p`, where `Reserve` returned `res`
(`none` is an error); the `Bool` says whether an error is returned. -/
def refreshRelayReservation (res : Option Reservation) (p : ID) (rf : relayFinder) :
    relayFinder × Bool :=
  match res with
  | none =>
    ({ rf with relays := mapDelete rf.relays p
               protectedPeers := Unprotect rf.protectedPeers p }, true)
  | some rsvp => ({ rf with relays := mapSet rf.relays p rsvp }, false)

/-- The method `refreshReservations`: every reservation that `now` plus the slack does not
precede is refreshed, and the result says whether one of the refreshes returned an error.
`reserve p` is what `Reserve` returns for `p`. -/
def refreshReservations (reserve : ID → Option Reservation) (now : Int) (rf : relayFinder) :
    relayFinder × Bool :=
  let due := rf.relays.filter (fun e => !decide (now + rsvpExpirationSlack < e.2.Expiration))
  due.foldl
    (fun acc e =>
      let r := refreshRelayReservation (reserve e.1) e.1 acc.1
      (r.1, acc.2 || r.2))
    (rf, false)

/-- What the relay finder asks of the host in `relayAddrs`: `manet.IsPrivateAddr`, the cleaned
address set `cleanupAddressSet(Peerstore().Addrs(p))` of a peer, and `addr.Encapsulate` of the
circuit address `/p2p/<p>/p2p-circuit`. -/
structure host where
  IsPrivateAddr : Multiaddr → Bool
  cleanAddrs : ID → List Multiaddr
  encapsulateCircuit : Multiaddr → ID → Multiaddr

/-- The address set `relayAddrs` computes when it does not answer from the cache. -/
def computeRelayAddrs (h : host) (addrs : List Multiaddr) (relays : List (ID × Reservation)) :
    List Multiaddr :=
  addrs.filter h.IsPrivateAddr ++
    (mapKeys relays).flatMap (fun p => (h.cleanAddrs p).map (fun addr => h.encapsulateCircuit addr p))

/-- The method `relayAddrs`, called at time `now`: the new state and the returned slice. -/
def relayAddrs (h : host) (now : Int) (addrs : List Multiaddr) (rf : relayFinder) :
    relayFinder × List Multiaddr :=
  match rf.cachedAddrs with
  | some cached =>
    if now < rf.cachedAddrsExpiry then (rf, cached)
    else
      let raddrs := computeRelayAddrs h addrs rf.relays
      ({ rf with cachedAddrs := some raddrs, cachedAddrsExpiry := now + cachedAddrsLifetime },
        raddrs)
  | none =>
    let raddrs := computeRelayAddrs h addrs rf.relays
    ({ rf with cachedAddrs := some raddrs, cachedAddrsExpiry := now + cachedAddrsLifetime },
      raddrs)

/-- The enum `network.Connectedness`. -/
inductive Connectedness where
  | NotConnected
  | Connected
  | CanConnect
  | CannotConnect
  deriving DecidableEq, Repr

/-- The cases of the `select` in the loop of `background` (the shutdown case apart). -/
inductive event where
  | connectednessChanged (p : ID) (c : Connectedness)
  | candidateFound
  | bootDelayTimer
  | relayUpdated
  | refreshTicker (now : Int) (reserve : ID → Option Reservation)
  | backoffTicker (now : Int)

/-- The `select` of one iteration of the loop in `background`: the new state and the value of
`push`; `none` when the event cannot be received (its channel is empty). For the two events
that call `handleNewCandidate`, the step ends with the read of `len(rf.relays)` that opens
that function, recorded in `deciding`; `push` stays false in these cases whatever the rest of
the function does. -/
def selectCase (conf : config) (ev : event) (rf : relayFinder) : Option (relayFinder × Bool) :=
  match ev with
  | .connectednessChanged p c =>
    if c ≠ Connectedness.NotConnected then some (rf, false)
    else if usingRelay rf p then some ({ rf with relays := mapDelete rf.relays p }, true)
    else some (rf, false)
  | .candidateFound =>
    if rf.candidateFound then
      some ({ rf with candidateFound := false, deciding := some rf.relays.length }, false)
    else none
  | .bootDelayTimer => some ({ rf with deciding := some rf.relays.length }, false)
  | .relayUpdated =>
    if rf.relayUpdated then some ({ rf with relayUpdated := false }, true) else none
  | .refreshTicker now reserve => some (refreshReservations reserve now rf)
  | .backoffTicker now => some (checkForCandidatesOnBackoff conf now rf, false)

/-- One iteration of the loop in `background`: the `select`, then, when `push` is set, the
cached addresses are cleared and `SignalAddressChange` is called. -/
def background (conf : config) (ev : event) (rf : relayFinder) : Option relayFinder :=
  (selectCase conf ev rf).map (fun r =>
    if r.2 then { r.1 with cachedAddrs := none, addressChanges := r.1.addressChanges + 1 }
    else r.1)

/-- The atomic steps of the running relay finder: `findNodes` reads a peer from `peerChan`; the
`handleNewNode` goroutine number `j` finishes its probe; one `select` of the supervisor loop;
the supervisor, inside `handleNewCandidate`, takes the candidate lock and runs the rest of the
function; one loop iteration of the reservation pass number `i`; a call of `relayAddrs`. -/
inductive action where
  | found (pi : AddrInfo)
  | probed (j : Nat) (tryNodeOk : Bool)
  | supervisor (ev : event)
  | startPass (now : Int) (peerChanLen : Nat) (order : List candidatePtr)
  | pass (i : Nat) (out : attempt)
  | addrs (h : host) (now : Int) (addrs : List Multiaddr)

/-- The call `time.NewTicker(rf.conf.backoff / 5)` at the start of `background` returns: the
period is positive. With a period of zero or less `NewTicker` panics and nothing runs. -/
def tickersStart (conf : config) : Bool :=
  decide (0 < Int.tdiv conf.backoff 5)

/-- One atomic step of the relay finder once `background` is past its set-up; `none` when the
step is not enabled in `rf`. The supervisor receives no event while it is inside
`handleNewCandidate`. -/
def act (conf : config) (a : action) (rf : relayFinder) : Option relayFinder :=
  match a with
  | .found pi => some (findNodes conf pi rf)
  | .probed j tryNodeOk =>
    match rf.probing.get? j with
    | some (pi, relayInUse) =>
      some (handleNewNode conf pi relayInUse tryNodeOk
        { rf with probing := rf.probing.eraseIdx j })
    | none => none
  | .supervisor ev =>
    match rf.deciding with
    | some _ => none
    | none => background conf ev rf
  | .startPass now peerChanLen order =>
    match rf.deciding with
    | some numRelays =>
      handleNewCandidate conf numRelays now peerChanLen order { rf with deciding := none }
    | none => none
  | .pass i out => passIteration conf i out rf
  | .addrs h now addrs => some (relayAddrs h now addrs rf).1

/-- One atomic step; `none` when the step is not enabled in `rf`, and always when `background`
panics in its set-up. -/
def step (conf : config) (a : action) (rf : relayFinder) : Option relayFinder :=
  if tickersStart conf then act conf a rf else none

/-- A run: the steps `as` one after the other. -/
def run (conf : config) : List action → relayFinder → Option relayFinder
  | [], rf => some rf
  | a :: as, rf => (step conf a rf).bind (run conf as)

end Autorelay

namespace Autorelay

/-- A peer hint with the id `n` and no addresses. -/
def samplePeer (n : Nat) : AddrInfo := { ID := n, Addrs := [] }

/-- The candidate object that `handleNewNode` allocates as number `a` for the peer `n`. -/
def sampleCand (a n : Nat) : candidatePtr :=
  { addr := a, obj := { added := 0, ai := samplePeer n, numAttempts := 0 } }

/-- A configuration with room for four candidates, one desired relay, three attempts and a
base backoff of one second. -/
def sampleConf : config :=
  { staticRelays := [], minCandidates := 1, maxCandidates := 4, bootDelay := 0,
    backoff := 1000000000, desiredRelays := 1, maxAttempts := 3 }

/-- A reservation that expires at `t`. -/
def sampleRsvp (t : Int) : Reservation := { Expiration := t, Addrs := [], Voucher := 0 }

/-- Five hop-capable peers reach `findNodes` while the candidate table is empty, then the five
probes finish one after the other. -/
def overflowRun : List action :=
  [.found (samplePeer 1), .found (samplePeer 2), .found (samplePeer 3), .found (samplePeer 4),
   .found (samplePeer 5),
   .probed 0 true, .probed 0 true, .probed 0 true, .probed 0 true, .probed 0 true]

/-- Peer 1 becomes a candidate and a reservation pass obtains a reservation with it. -/
def reserveRun : List action :=
  [.found (samplePeer 1), .probed 0 true,
   .supervisor .candidateFound, .startPass 1 0 [sampleCand 0 1],
   .pass 0 (.reserved (sampleRsvp 90000000000))]

/-- Peers 1 and 2 become candidates; one pass fails to reserve with peer 1 at time 10 ns
(jitter draw 7) and then with peer 2 at time 11 ns (jitter draw 0). -/
def jitterRun : List action :=
  [.found (samplePeer 1), .found (samplePeer 2), .probed 0 true, .probed 0 true,
   .supervisor .candidateFound, .startPass 1 0 [sampleCand 0 1, sampleCand 1 2],
   .pass 0 (.reserveFailed 10 7), .pass 0 (.reserveFailed 11 0)]

/-- Peer 1 becomes a candidate and its notification starts a reservation pass; while the
pass waits for `Reserve`, peer 2 becomes a candidate and its notification starts a second pass
over the shuffled candidates 2, 1; then each pass obtains a reservation with its first
candidate. -/
def twoPassRun : List action :=
  [.found (samplePeer 1), .probed 0 true,
   .supervisor .candidateFound, .startPass 1 0 [sampleCand 0 1],
   .found (samplePeer 2), .probed 0 true,
   .supervisor .candidateFound, .startPass 2 0 [sampleCand 1 2, sampleCand 0 1],
   .pass 0 (.reserved (sampleRsvp 90000000000)),
   .pass 0 (.reserved (sampleRsvp 90000000000))]

/-- Peer 1 becomes a candidate and a pass starts over it. Peer 2 becomes a candidate and the
supervisor, handling its notification, reads `len(rf.relays) = 0`; before it takes the
candidate lock the first pass obtains its reservation and returns; the supervisor then starts
a second pass on the stale count, and that pass obtains a reservation with peer 2. The two
passes are never in flight together. -/
def staleRun : List action :=
  [.found (samplePeer 1), .probed 0 true,
   .supervisor .candidateFound, .startPass 1 0 [sampleCand 0 1],
   .found (samplePeer 2), .probed 0 true,
   .supervisor .candidateFound,
   .pass 0 (.reserved (sampleRsvp 90000000000)),
   .startPass 2 0 [sampleCand 1 2, sampleCand 0 1],
   .pass 0 (.reserved (sampleRsvp 90000000000))]

/-- A host for which every address is private, whose peer store knows the address `100 + p`
of the peer `p`, and where the circuit address of `addr` through `p` is `1000 * p + addr`. -/
def sampleHost : host :=
  { IsPrivateAddr := fun _ => true
    cleanAddrs := fun p => [100 + p]
    encapsulateCircuit := fun addr p => 1000 * p + addr }

/-- After `reserveRun` (the reservation with peer 1 expires at 90 s) the supervisor receives
the relay-updated notification, `relayAddrs` is called at 50 s and caches its result until
80 s, and at the refresh tick at 60 s `Reserve` succeeds with a reservation that expires at
3600 s. -/
def refreshRun : List action :=
  reserveRun ++
    [.supervisor .relayUpdated,
     .addrs sampleHost 50000000000 [],
     .supervisor (.refreshTicker 60000000000 (fun _ => some (sampleRsvp 3600000000000)))]

/-- The state that `reserveRun` reaches: peer 1 is a candidate, holds a reservation that
expires at 90 s and is protected; the relay-updated notification is pending. -/
def reservedState : relayFinder :=
  { bootTime := 0
    candidateFound := false
    candidates := [(1, sampleCand 0 1)]
    candidatesOnBackoff := []
    relayUpdated := true
    relays := [(1, sampleRsvp 90000000000)]
    cachedAddrs := none
    cachedAddrsExpiry := 0
    protectedPeers := [1]
    addressChanges := 0
    allocated := 1
    probing := []
    passes := []
    deciding := none }

/-- The state that `refreshRun` reaches: the reservation with peer 1 was replaced by the one
that expires at 3600 s, and the address set cached at 50 s is still in place. -/
def refreshedState : relayFinder :=
  { reservedState with
    relayUpdated := false
    relays := [(1, sampleRsvp 3600000000000)]
    cachedAddrs := some [1101]
    cachedAddrsExpiry := 80000000000
    addressChanges := 1 }

/-- The state `refreshedState` after the `NotConnected` event of peer 1. -/
def disconnectedState : relayFinder :=
  { refreshedState with relays := [], cachedAddrs := none, addressChanges := 2 }

/-- The configuration `sampleConf` with a base backoff of one second and one nanosecond. -/
def oddConf : config := { sampleConf with backoff := 1000000001 }

/-- The object that the backoff sweep allocates as number `a` for the peer `n` after `k`
failed attempts. -/
def retriedCand (a n : Nat) (k : Int) : candidatePtr :=
  { addr := a, obj := { added := 0, ai := samplePeer n, numAttempts := k } }

/-- Peer 1 becomes a candidate and `Reserve` fails three times (`maxAttempts = 3`, base
backoff 1 s): after the first and the second failure the peer waits in the backoff queue, a
sweep returns it to the candidate table and the next pass tries it again; the third failure
gives it up. -/
def retryRun : List action :=
  [.found (samplePeer 1), .probed 0 true,
   .supervisor .candidateFound, .startPass 1 0 [sampleCand 0 1],
   .pass 0 (.reserveFailed 10 0),
   .supervisor (.backoffTicker 2000000000),
   .supervisor .candidateFound, .startPass 2000000001 0 [retriedCand 1 1 1],
   .pass 0 (.reserveFailed 2000000010 0),
   .supervisor (.backoffTicker 5000000000),
   .supervisor .candidateFound, .startPass 5000000001 0 [retriedCand 2 1 2],
   .pass 0 (.reserveFailed 5000000010 0)]

/-- The state that `retryRun` reaches: peer 1 is in no table and three objects were
allocated. -/
def givenUpState : relayFinder :=
  { newRelayFinder 0 with allocated := 3 }

/-- The configuration `sampleConf` with a single attempt per candidate. -/
def oneAttemptConf : config := { sampleConf with maxAttempts := 1 }

/-- Peer 1 becomes a candidate and its first `Reserve` fails at time 10 ns, with the jitter
draw 0. -/
def giveUpRun : List action :=
  [.found (samplePeer 1), .probed 0 true,
   .supervisor .candidateFound, .startPass 1 0 [sampleCand 0 1],
   .pass 0 (.reserveFailed 10 0)]

/-- After `giveUpRun`, discovery delivers peer 1 again: it is probed and inserted afresh, and
the next pass tries it again and `Reserve` fails a second time. -/
def rediscoverRun : List action :=
  giveUpRun ++
    [.found (samplePeer 1), .probed 0 true,
     .supervisor .candidateFound, .startPass 20 0 [sampleCand 1 1],
     .pass 0 (.reserveFailed 30 0)]

/-- Peer 1 fails its first `Reserve` and waits in the backoff queue; discovery delivers it
again and `handleNewNode` inserts it into the candidate table. -/
def reprobeRun : List action :=
  [.found (samplePeer 1), .probed 0 true,
   .supervisor .candidateFound, .startPass 1 0 [sampleCand 0 1],
   .pass 0 (.reserveFailed 10 0),
   .found (samplePeer 1), .probed 0 true]

/-- The state that `giveUpRun` reaches with `sampleConf`: peer 1 waits in the backoff queue
after one failed attempt. -/
def backoffState : relayFinder :=
  { newRelayFinder 0 with
    candidatesOnBackoff :=
      [{ toCandidate := { added := 0, ai := samplePeer 1, numAttempts := 1 },
         nextConnAttempt := 800000010 }]
    allocated := 1 }

end Autorelay

namespace Autorelay

/-- The candidate table as a map from peer ids to `candidate` values (the objects the
pointers lead to). -/
def candidateObjs (rf : relayFinder) : List (ID × candidate) :=
  rf.candidates.map (fun e => (e.1, e.2.obj))

/-- The peer ids of the entries of a backoff queue, in queue order. -/
def backoffIDs (q : List candidateOnBackoff) : List ID :=
  q.map (fun c => c.toCandidate.ai.ID)

/-- The sweep as the specification words it, for one entry popped from the backoff queue: it
is re-inserted as a candidate, with its fields unchanged, when the table holds fewer than
`maxCandidates` entries at that moment, and dropped otherwise. -/
def reinsertPopped (conf : config) (table : List (ID × candidate)) (e : candidateOnBackoff) :
    List (ID × candidate) :=
  if (table.length : Int) < conf.maxCandidates then
    mapSet table e.toCandidate.ai.ID e.toCandidate
  else table

/-- One step of a run in which at most one reservation pass is in flight at a time: the step
is taken only when it leaves at most one pass in flight. -/
def stepSerial (conf : config) (a : action) (rf : relayFinder) : Option relayFinder :=
  (step conf a rf).bind (fun rf1 => if rf1.passes.length ≤ 1 then some rf1 else none)

/-- A run in which at most one reservation pass is in flight at a time. -/
def runSerial (conf : config) : List action → relayFinder → Option relayFinder
  | [], rf => some rf
  | a :: as, rf => (stepSerial conf a rf).bind (runSerial conf as)

/-- The candidate table is well formed: every object is stored under its own peer id, no key
and no object address occurs twice, and every address was allocated. -/
def tableInv (cands : List (ID × candidatePtr)) (alloc : Nat) : Prop :=
  (∀ e ∈ cands, e.2.obj.ai.ID = e.1)
  ∧ (mapKeys cands).Nodup
  ∧ (∀ e ∈ cands, e.2.addr < alloc)
  ∧ (cands.map (fun e => e.2.addr)).Nodup

/-- The candidates a pass still has to try are distinct peers and distinct objects. -/
def passInv (pass : List candidatePtr) : Prop :=
  (pass.map (fun c => c.obj.ai.ID)).Nodup ∧ (pass.map (fun c => c.addr)).Nodup

/-- The state is well formed: the candidate table and the in-flight passes are. -/
def wellFormed (rf : relayFinder) : Prop :=
  tableInv rf.candidates rf.allocated ∧ ∀ pass ∈ rf.passes, passInv pass

/-- The peer ids of the candidates a pass still has to try. -/
def passIDs (pass : List candidatePtr) : List ID :=
  pass.map (fun c => c.obj.ai.ID)

/-- The step `a`, taken in `rf`, is a `handleNewNode` that inserts the peer `p` into the
candidate table: the probe is for `p`, `p` was not a relay, `tryNode` succeeded and the table
is not above `maxCandidates`. -/
def insertsPeer (conf : config) (p : ID) (a : action) (rf : relayFinder) : Bool :=
  match a with
  | .probed j tryNodeOk =>
    match rf.probing.get? j with
    | some (pi, relayInUse) =>
      decide (pi.ID = p) && !relayInUse && tryNodeOk
        && !decide ((rf.candidates.length : Int) > conf.maxCandidates)
    | none => false
  | _ => false

/-- The step `a`, taken in `rf`, is a loop iteration of a reservation pass in which `Reserve`
fails for the peer `p`. -/
def failsPeer (p : ID) (a : action) (rf : relayFinder) : Bool :=
  match a with
  | .pass i (.reserveFailed _ _) =>
    match rf.passes.get? i with
    | some (cand :: _) => decide (cand.obj.ai.ID = p)
    | _ => false
  | _ => false

/-- The number of steps of a run without overlapping passes that satisfy `f`. -/
def countSteps (f : action → relayFinder → Bool) (conf : config) :
    List action → relayFinder → Nat
  | [], _ => 0
  | a :: as, rf =>
    (if f a rf then 1 else 0) +
      (match stepSerial conf a rf with
       | some rf1 => countSteps f conf as rf1
       | none => 0)

/-- A run without overlapping passes in which `handleNewNode` does not insert the peer `p`
into the candidate table while `p` is in the backoff queue. -/
def runFresh (conf : config) (p : ID) : List action → relayFinder → Option relayFinder
  | [], rf => some rf
  | a :: as, rf =>
    if insertsPeer conf p a rf && (backoffIDs rf.candidatesOnBackoff).contains p then none
    else (stepSerial conf a rf).bind (runFresh conf p as)

/-- The peer `p` is not both a candidate (table `T`) and on backoff (queue `Q`), it is in the
queue at most once, and no pass in `Ps` still has to try it while it is in the queue. -/
def exclusiveT (p : ID) (T : List (ID × candidate)) (Q : List candidateOnBackoff)
    (Ps : List (List candidatePtr)) : Prop :=
  (p ∈ mapKeys T → p ∉ backoffIDs Q)
  ∧ (backoffIDs Q).count p ≤ 1
  ∧ (∀ pass ∈ Ps, p ∈ passIDs pass → p ∉ backoffIDs Q)

/-- The bookkeeping for the peer `p` after `F` failed reservations and `N` insertions by
`handleNewNode`: before the first insertion `p` is nowhere; every record of `p` (in the
table `T`, in the queue `Q`, in a pass of `Ps`) carries the attempt count `F`; and `F` is below
`maxAttempts` while a record of `p` exists, and never above it. -/
def countedT (maxAttempts : Int) (p : ID) (F N : Nat) (T : List (ID × candidate))
    (Q : List candidateOnBackoff) (Ps : List (List candidatePtr)) : Prop :=
  (N = 0 → p ∉ mapKeys T ∧ p ∉ backoffIDs Q ∧ (∀ pass ∈ Ps, p ∉ passIDs pass) ∧ F = 0)
  ∧ (∀ e ∈ T, e.1 = p → e.2.numAttempts = (F : Int))
  ∧ (∀ b ∈ Q, b.toCandidate.ai.ID = p → b.toCandidate.numAttempts = (F : Int))
  ∧ (∀ pass ∈ Ps, ∀ c ∈ pass, c.obj.ai.ID = p → c.obj.numAttempts = (F : Int))
  ∧ ((p ∈ mapKeys T ∨ p ∈ backoffIDs Q ∨ ∃ pass ∈ Ps, p ∈ passIDs pass) →
      (F : Int) < maxAttempts)
  ∧ (F : Int) ≤ maxAttempts

/-- How one step of a run without overlapping passes changes the candidate table (`T` to
`T1`), the backoff queue (`Q` to `Q1`) and the in-flight passes (`Ps` to `Ps1`); `ins` says
whether the step is an insertion of the peer `p` by `handleNewNode` and `fails` whether it is
a failed `Reserve` for `p`. The cases: nothing changes; `handleNewNode` inserts a fresh
object; a pass starts over candidates of the table; the sweep pops a prefix of the queue; a
pass iteration ends without touching the table (`Reserve` succeeded); a pass iteration
deletes its candidate from the table (dial failure, candidate given up, or backoff queue
full); a pass iteration moves its candidate to the backoff queue. -/
inductive transition (maxAttempts : Int) (conf : config) (p : ID)
    (T : List (ID × candidate)) (Q : List candidateOnBackoff) (Ps : List (List candidatePtr))
    (T1 : List (ID × candidate)) (Q1 : List candidateOnBackoff)
    (Ps1 : List (List candidatePtr)) (ins fails : Bool) : Prop where
  | frame : T1 = T → Q1 = Q → Ps1 = Ps → ins = false → fails = false →
      transition maxAttempts conf p T Q Ps T1 Q1 Ps1 ins fails
  | insert (k : ID) (obj : candidate) : obj.ai.ID = k → obj.numAttempts = 0 →
      T1 = mapSet T k obj → Q1 = Q → Ps1 = Ps → ins = decide (k = p) → fails = false →
      transition maxAttempts conf p T Q Ps T1 Q1 Ps1 ins fails
  | start (order : List candidatePtr) : (∀ c ∈ order, (c.obj.ai.ID, c.obj) ∈ T) →
      T1 = T → Q1 = Q → Ps1 = Ps ++ [order] → ins = false → fails = false →
      transition maxAttempts conf p T Q Ps T1 Q1 Ps1 ins fails
  | sweep (es : List candidateOnBackoff) : Q = es ++ Q1 →
      T1 = es.foldl (reinsertPopped conf) T → Ps1 = Ps → ins = false → fails = false →
      transition maxAttempts conf p T Q Ps T1 Q1 Ps1 ins fails
  | reserved (cand : candidatePtr) (rest : List candidatePtr) : cand :: rest ∈ Ps →
      (∀ pass ∈ Ps1, pass = rest) → T1 = T → Q1 = Q → ins = false → fails = false →
      transition maxAttempts conf p T Q Ps T1 Q1 Ps1 ins fails
  | dropped (cand : candidatePtr) (rest : List candidatePtr) (failed : Bool) :
      cand :: rest ∈ Ps → cand.obj.ai.ID ∉ passIDs rest → (∀ pass ∈ Ps1, pass = rest) →
      T1 = mapDelete T cand.obj.ai.ID → Q1 = Q → ins = false →
      fails = (failed && decide (cand.obj.ai.ID = p)) →
      transition maxAttempts conf p T Q Ps T1 Q1 Ps1 ins fails
  | backedOff (cand : candidatePtr) (rest : List candidatePtr) (t : Int) :
      cand :: rest ∈ Ps → cand.obj.ai.ID ∉ passIDs rest → (∀ pass ∈ Ps1, pass = rest) →
      cand.obj.numAttempts + 1 < maxAttempts →
      T1 = mapDelete T cand.obj.ai.ID →
      Q1 = Q ++ [{ toCandidate := { cand.obj with numAttempts := cand.obj.numAttempts + 1 },
                   nextConnAttempt := t }] →
      ins = false → fails = decide (cand.obj.ai.ID = p) →
      transition maxAttempts conf p T Q Ps T1 Q1 Ps1 ins fails

end Autorelay

/-! ## `DialError.recordErr` -/

namespace Swarm

theorem recordAll_from (calls : List (Multiaddr × Error)) (e : DialError) :
    (recordAll e calls).DialErrors
        = e.DialErrors ++ (calls.take (maxDialDialErrors - e.DialErrors.length)).map
            (fun c => { Address := c.1, Cause := c.2 })
    ∧ (recordAll e calls).Skipped
        = e.Skipped + ((calls.length - (maxDialDialErrors - e.DialErrors.length) : Nat) : Int)
    ∧ (recordAll e calls).Peer = e.Peer ∧ (recordAll e calls).Cause = e.Cause := by
  induction calls generalizing e with
  | nil => simp [recordAll]
  | cons c cs ih =>
    have hstep : recordAll e (c :: cs) = recordAll (e.recordErr c.1 c.2) cs := rfl
    rw [hstep]
    obtain ⟨h1, h2, h3, h4⟩ := ih (e.recordErr c.1 c.2)
    rw [h1, h2, h3, h4]
    unfold DialError.recordErr
    by_cases hfull : e.DialErrors.length ≥ maxDialDialErrors
    · have hz : maxDialDialErrors - e.DialErrors.length = 0 := by omega
      simp [hfull, hz]
      omega
    · have hs : maxDialDialErrors - e.DialErrors.length
          = (maxDialDialErrors - (e.DialErrors.length + 1)) + 1 := by omega
      simp only [hfull, if_false, List.length_append, List.length_singleton]
      rw [hs]
      simp [List.take_succ_cons]

/-- C9: after `n` calls of `recordErr` on a `DialError` with no recorded error and
`Skipped = 0`, `DialErrors` holds the first `min n 16` (address, error) pairs in call order,
`Skipped` is `max 0 (n - 16)`, at most `maxDialDialErrors` errors are recorded and
`len(DialErrors) + Skipped = n`; `Peer` and `Cause` are untouched. -/
theorem recordErr_limit (p : ID) (cause : Option Error) (calls : List (Multiaddr × Error)) :
    (recordAll { Peer := p, DialErrors := [], Cause := cause, Skipped := 0 } calls).DialErrors
        = (calls.take 16).map (fun c => { Address := c.1, Cause := c.2 })
    ∧ (recordAll { Peer := p, DialErrors := [], Cause := cause, Skipped := 0 } calls).DialErrors.length
        = min calls.length 16
    ∧ (recordAll { Peer := p, DialErrors := [], Cause := cause, Skipped := 0 } calls).Skipped
        = max 0 ((calls.length : Int) - 16)
    ∧ (recordAll { Peer := p, DialErrors := [], Cause := cause, Skipped := 0 } calls).DialErrors.length
        ≤ maxDialDialErrors
    ∧ ((recordAll { Peer := p, DialErrors := [], Cause := cause, Skipped := 0 }
          calls).DialErrors.length : Int)
        + (recordAll { Peer := p, DialErrors := [], Cause := cause, Skipped := 0 } calls).Skipped
        = calls.length
    ∧ (recordAll { Peer := p, DialErrors := [], Cause := cause, Skipped := 0 } calls).Peer = p
    ∧ (recordAll { Peer := p, DialErrors := [], Cause := cause, Skipped := 0 } calls).Cause
        = cause := by
  obtain ⟨h1, h2, h3, h4⟩ :=
    recordAll_from calls { Peer := p, DialErrors := [], Cause := cause, Skipped := 0 }
  have hd : (recordAll { Peer := p, DialErrors := [], Cause := cause, Skipped := 0 }
      calls).DialErrors = (calls.take 16).map (fun c => { Address := c.1, Cause := c.2 }) := by
    rw [h1]; simp [maxDialDialErrors]
  have hl : (recordAll { Peer := p, DialErrors := [], Cause := cause, Skipped := 0 }
      calls).DialErrors.length = min calls.length 16 := by
    rw [hd]; simp [Nat.min_comm]
  have hs : (recordAll { Peer := p, DialErrors := [], Cause := cause, Skipped := 0 }
      calls).Skipped = max 0 ((calls.length : Int) - 16) := by
    rw [h2]; simp [maxDialDialErrors]; omega
  refine ⟨hd, hl, hs, ?_, ?_, h3, h4⟩
  · rw [hl]; simp [maxDialDialErrors]
  · rw [hl, hs]; omega

end Swarm

namespace Autorelay

/-! ## Backoff delay -/

theorem wrap64_of_range (x : Int) (h0 : -9223372036854775808 ≤ x)
    (h1 : x ≤ 9223372036854775807) : wrap64 x = x := by
  unfold wrap64; omega

/-- C4 (counterexample): with a base backoff of 1 s + 1 ns, peer 1 fails its first `Reserve`
at time 10 ns with the jitter draw 0 and is queued with `nextConnAttempt = 10 ns + 0.8 s`:
the delay is 800000000 ns, which is below `0.8 * backoff * 2 ^ (k - 1) = 800000000.8 ns`. -/
theorem backoff_delay_below_lower_bound :
    (run oddConf giveUpRun (newRelayFinder 0)).map
        (fun s => s.candidatesOnBackoff.map
          (fun c => (c.toCandidate.numAttempts, c.nextConnAttempt)))
      = some [(1, 800000010)]
    ∧ ¬ (4 * (oddConf.backoff * 2 ^ ((1 : Int) - 1).toNat) ≤ 5 * ((800000010 : Int) - 10)) := by
  decide

/-- C4 (amended): for an attempt count `k ≥ 1`, a base `backoff ≥ 0` and a jitter draw `r`
such that neither `2 ^ (k - 1)` nor `backoff * 2 ^ (k - 1) * (16 + r)` overflows an `int64`,
when the backoff queue has room `moveCandidateToBackoff` appends the candidate with
`nextConnAttempt = now + backoff * 2 ^ (k - 1) * (16 + r) / 20`, the quotient truncated to
whole nanoseconds. This delay `d` satisfies `d > 0.8 * backoff * 2 ^ (k - 1) - 1 ns` and
`d ≤ 1.2 * backoff * 2 ^ (k - 1)`, and `d ≥ 0.8 * backoff * 2 ^ (k - 1)` when
`backoff * 2 ^ (k - 1)` is a multiple of 5 ns. -/
theorem moveCandidateToBackoff_delay (conf : config) (now : Int) (r : Fin 8) (cand : candidate)
    (rf : relayFinder) (hk : 1 ≤ cand.numAttempts) (hb : 0 ≤ conf.backoff)
    (hshift : (2 : Int) ^ (cand.numAttempts - 1).toNat ≤ 9223372036854775807)
    (hfit : conf.backoff * 2 ^ (cand.numAttempts - 1).toNat * (16 + (r.val : Int))
      ≤ 9223372036854775807)
    (hroom : (rf.candidatesOnBackoff.length : Int) < conf.maxCandidates) :
    moveCandidateToBackoff conf now r cand rf
        = some { rf with
            candidatesOnBackoff := rf.candidatesOnBackoff ++
              [{ toCandidate := cand
                 nextConnAttempt := now +
                   conf.backoff * 2 ^ (cand.numAttempts - 1).toNat * (16 + (r.val : Int))
                     / 20 }] }
    ∧ 4 * (conf.backoff * 2 ^ (cand.numAttempts - 1).toNat) - 5
        < 5 * (conf.backoff * 2 ^ (cand.numAttempts - 1).toNat * (16 + (r.val : Int)) / 20)
    ∧ 5 * (conf.backoff * 2 ^ (cand.numAttempts - 1).toNat * (16 + (r.val : Int)) / 20)
        ≤ 6 * (conf.backoff * 2 ^ (cand.numAttempts - 1).toNat)
    ∧ ((5 : Int) ∣ conf.backoff * 2 ^ (cand.numAttempts - 1).toNat →
        4 * (conf.backoff * 2 ^ (cand.numAttempts - 1).toNat)
          ≤ 5 * (conf.backoff * 2 ^ (cand.numAttempts - 1).toNat * (16 + (r.val : Int))
              / 20)) := by
  have hpow : (0 : Int) < 2 ^ (cand.numAttempts - 1).toNat := by positivity
  have hB : 0 ≤ conf.backoff * 2 ^ (cand.numAttempts - 1).toNat :=
    Int.mul_nonneg hb (Int.le_of_lt hpow)
  have hr : (r.val : Int) < 8 := by exact_mod_cast r.isLt
  have hr0 : (0 : Int) ≤ r.val := by exact_mod_cast Nat.zero_le _
  have hBr : 0 ≤ conf.backoff * 2 ^ (cand.numAttempts - 1).toNat * (r.val : Int) :=
    Int.mul_nonneg hB hr0
  have hBr7 : conf.backoff * 2 ^ (cand.numAttempts - 1).toNat * (r.val : Int)
      ≤ conf.backoff * 2 ^ (cand.numAttempts - 1).toNat * 7 :=
    Int.mul_le_mul_of_nonneg_left (by omega) hB
  have hx : conf.backoff * 2 ^ (cand.numAttempts - 1).toNat * (16 + (r.val : Int))
      = 16 * (conf.backoff * 2 ^ (cand.numAttempts - 1).toNat)
        + conf.backoff * 2 ^ (cand.numAttempts - 1).toNat * (r.val : Int) := by ring
  refine ⟨?_, ?_, ?_, ?_⟩
  · have w1 : wrap64 (2 ^ (cand.numAttempts - 1).toNat) = 2 ^ (cand.numAttempts - 1).toNat :=
      wrap64_of_range _ (by omega) hshift
    have w2 : wrap64 (conf.backoff * 2 ^ (cand.numAttempts - 1).toNat)
        = conf.backoff * 2 ^ (cand.numAttempts - 1).toNat := by
      apply wrap64_of_range
      · omega
      · rw [hx] at hfit
        generalize conf.backoff * 2 ^ (cand.numAttempts - 1).toNat = B at *
        generalize B * (r.val : Int) = y at *
        omega
    have w3 : wrap64 (conf.backoff * 2 ^ (cand.numAttempts - 1).toNat * (16 + (r.val : Int)))
        = conf.backoff * 2 ^ (cand.numAttempts - 1).toNat * (16 + (r.val : Int)) := by
      apply wrap64_of_range
      · rw [hx]
        generalize conf.backoff * 2 ^ (cand.numAttempts - 1).toNat = B at *
        generalize B * (r.val : Int) = y at *
        omega
      · exact hfit
    unfold moveCandidateToBackoff
    have h1 : ¬ ((rf.candidatesOnBackoff.length : Int) ≥ conf.maxCandidates) := by omega
    have h2 : ¬ (cand.numAttempts - 1 < 0) := by omega
    simp only [h1, h2, if_false]
    rw [w1, w2, w3, Int.tdiv_eq_ediv (by rw [hx]; omega) (by norm_num)]
  · rw [hx]
    generalize conf.backoff * 2 ^ (cand.numAttempts - 1).toNat = B at *
    generalize B * (r.val : Int) = y at *
    omega
  · rw [hx]
    generalize conf.backoff * 2 ^ (cand.numAttempts - 1).toNat = B at *
    generalize B * (r.val : Int) = y at *
    omega
  · intro hdvd
    rw [hx]
    generalize conf.backoff * 2 ^ (cand.numAttempts - 1).toNat = B at *
    generalize B * (r.val : Int) = y at *
    omega

/-- C4 (witness): a base backoff of one second, a second failure at time 5 ns and the jitter
draw 3: the delay is `2 s * 19 / 20 = 1.9 s`. -/
theorem moveCandidateToBackoff_delay_witness :
    moveCandidateToBackoff sampleConf 5 3 { added := 0, ai := samplePeer 1, numAttempts := 2 }
        (newRelayFinder 0)
      = some { newRelayFinder 0 with
          candidatesOnBackoff :=
            [{ toCandidate := { added := 0, ai := samplePeer 1, numAttempts := 2 }
               nextConnAttempt := 1900000005 }] }
    ∧ 4 * (sampleConf.backoff * 2 ^ ((2 : Int) - 1).toNat) - 5
        < 5 * (sampleConf.backoff * 2 ^ ((2 : Int) - 1).toNat * (16 + ((3 : Fin 8).val : Int))
            / 20) :=
  ⟨by decide,
   (moveCandidateToBackoff_delay sampleConf 5 3
      { added := 0, ai := samplePeer 1, numAttempts := 2 } (newRelayFinder 0)
      (by decide) (by decide) (by decide) (by decide) (by decide)).2.1⟩

/-! ## Closed evaluations of the code -/

/-- C2 (failing input): with `maxCandidates = 4`, five qualifying peers pass the check in
`findNodes` while the table is empty and are probed concurrently; `handleNewNode` then inserts
all five (it rejects only when `len(candidates) > maxCandidates`), so the candidate table
holds five entries and none of the five is rejected. -/
theorem candidate_cap_overshoot :
    (run sampleConf overflowRun (newRelayFinder 0)).map
        (fun s => (s.candidates.length, mapKeys s.candidates)) = some (5, [1, 2, 3, 4, 5])
    ∧ sampleConf.maxCandidates = 4 := by
  decide

/-- C7 (failing input): peer 1 holds a reservation and is protected; the `NotConnected` event
for peer 1 deletes the reservation and leaves the peer protected, whereas a failed refresh of
the same reservation deletes it and unprotects the peer. -/
theorem disconnect_keeps_protection :
    (run sampleConf reserveRun (newRelayFinder 0)).map
        (fun s => (mapKeys s.relays, s.protectedPeers)) = some ([1], [1])
    ∧ (run sampleConf
          (reserveRun ++ [.supervisor (.connectednessChanged 1 Connectedness.NotConnected)])
          (newRelayFinder 0)).map
        (fun s => (mapKeys s.relays, s.protectedPeers)) = some ([], [1])
    ∧ (run sampleConf
          (reserveRun ++ [.supervisor (.refreshTicker 60000000000 (fun _ => none))])
          (newRelayFinder 0)).map
        (fun s => (mapKeys s.relays, s.protectedPeers)) = some ([], []) := by
  decide

/-- C8 (failing input): two candidates fail their first reservation 1 ns apart, the first
with the jitter draw 7 and the second with the draw 0; the backoff queue then holds the
`nextConnAttempt` times 1.15 s + 10 ns and 0.8 s + 11 ns in this order, which is not sorted. -/
theorem backoff_queue_unsorted :
    (run sampleConf jitterRun (newRelayFinder 0)).map
        (fun s => s.candidatesOnBackoff.map (fun c => c.nextConnAttempt))
      = some [1150000010, 800000011]
    ∧ ¬ List.Pairwise (fun a b : Int => a ≤ b) [1150000010, 800000011] := by
  decide

end Autorelay

namespace Autorelay

/-! ## Maps -/

theorem mapKeys_mapDelete {β : Type} (m : List (ID × β)) (k : ID) :
    mapKeys (mapDelete m k) = (mapKeys m).filter (fun q => q != k) := by
  induction m with
  | nil => rfl
  | cons e m ih =>
    simp only [mapKeys, mapDelete] at ih ⊢
    by_cases h : e.1 = k <;> simp [List.filter_cons, h, ih]

theorem mapKeys_mapSet {β : Type} (m : List (ID × β)) (k : ID) (v : β) :
    mapKeys (mapSet m k v) = (mapKeys m).filter (fun q => q != k) ++ [k] := by
  rw [← mapKeys_mapDelete]
  simp [mapSet, mapKeys]

theorem mapHas_iff {β : Type} (m : List (ID × β)) (k : ID) :
    mapHas m k = true ↔ k ∈ mapKeys m := by
  simp [mapHas, mapKeys]

theorem mem_mapKeys_mapDelete {β : Type} (m : List (ID × β)) (k p : ID) :
    p ∈ mapKeys (mapDelete m k) ↔ p ∈ mapKeys m ∧ p ≠ k := by
  simp [mapKeys_mapDelete]

theorem mem_mapKeys_mapSet {β : Type} (m : List (ID × β)) (k : ID) (v : β) (p : ID) :
    p ∈ mapKeys (mapSet m k v) ↔ p = k ∨ p ∈ mapKeys m := by
  simp [mapKeys_mapSet]
  by_cases h : p = k <;> simp [h]

theorem length_mapDelete_le {β : Type} (m : List (ID × β)) (k : ID) :
    (mapDelete m k).length ≤ m.length :=
  List.length_filter_le _ _

theorem length_mapDelete_lt {β : Type} (m : List (ID × β)) (k : ID) (h : k ∈ mapKeys m) :
    (mapDelete m k).length < m.length := by
  induction m with
  | nil => simp [mapKeys] at h
  | cons e m ih =>
    by_cases he : e.1 = k
    · have : mapDelete (e :: m) k = mapDelete m k := by simp [mapDelete, List.filter_cons, he]
      rw [this]
      have := length_mapDelete_le m k
      simp only [List.length_cons]; omega
    · have hk : k ∈ mapKeys m := by
        simp only [mapKeys, List.map_cons, List.mem_cons] at h
        rcases h with h | h
        · exact absurd h.symm he
        · exact h
      have : mapDelete (e :: m) k = e :: mapDelete m k := by
        simp [mapDelete, List.filter_cons, he]
      rw [this]
      have := ih hk
      simp only [List.length_cons]; omega

theorem length_mapSet_of_mem {β : Type} (m : List (ID × β)) (k : ID) (v : β)
    (h : k ∈ mapKeys m) : (mapSet m k v).length ≤ m.length := by
  simp only [mapSet, List.length_append, List.length_singleton]
  have := length_mapDelete_lt m k h
  omega

theorem mapGet_mapDelete_ne {β : Type} (m : List (ID × β)) (k p : ID) (h : p ≠ k) :
    mapGet (mapDelete m k) p = mapGet m p := by
  induction m with
  | nil => rfl
  | cons e m ih =>
    have ih1 : Option.map Prod.snd (List.find? (fun e => e.1 == p) (mapDelete m k))
        = Option.map Prod.snd (List.find? (fun e => e.1 == p) m) := ih
    by_cases he : e.1 = k
    · have hep : (e.1 == p) = false := by
        simp only [beq_eq_false_iff_ne, ne_eq]
        exact fun hp => h (hp ▸ he)
      have hd : mapDelete (e :: m) k = mapDelete m k := by
        simp [mapDelete, List.filter_cons, he]
      simp only [mapGet, hd, List.find?_cons, hep]
      exact ih1
    · have hd : mapDelete (e :: m) k = e :: mapDelete m k := by
        simp [mapDelete, List.filter_cons, he]
      simp only [mapGet, hd, List.find?_cons]
      cases hep : (e.1 == p) with
      | true => rfl
      | false => exact ih1

theorem mapGet_mapSet_ne {β : Type} (m : List (ID × β)) (k : ID) (v : β) (p : ID) (h : p ≠ k) :
    mapGet (mapSet m k v) p = mapGet m p := by
  have h1 := mapGet_mapDelete_ne m k p h
  simp only [mapGet, mapSet, List.find?_append] at h1 ⊢
  have hk : ¬ k = p := fun hp => h hp.symm
  cases hf : List.find? (fun e => e.1 == p) (mapDelete m k) with
  | some x => rw [hf] at h1; simp [← h1]
  | none => rw [hf] at h1; simp [← h1, List.find?_cons, hk]

theorem map_mapSet {β γ : Type} (f : β → γ) (m : List (ID × β)) (k : ID) (v : β) :
    (mapSet m k v).map (fun e => (e.1, f e.2)) = mapSet (m.map (fun e => (e.1, f e.2))) k (f v) := by
  simp [mapSet, mapDelete, List.filter_map, Function.comp_def]

/-! ## The backoff sweep -/

theorem checkLoop_spec (conf : config) (now : Int) :
    ∀ (q : List candidateOnBackoff) (rf : relayFinder), rf.candidatesOnBackoff = q →
      (checkLoop conf now q rf).candidatesOnBackoff
          = q.dropWhile (fun e => !decide (e.nextConnAttempt > now))
      ∧ candidateObjs (checkLoop conf now q rf)
          = (q.takeWhile (fun e => !decide (e.nextConnAttempt > now))).foldl
              (reinsertPopped conf) (candidateObjs rf)
      ∧ (checkLoop conf now q rf).relays = rf.relays
      ∧ (checkLoop conf now q rf).passes = rf.passes
      ∧ (checkLoop conf now q rf).probing = rf.probing
      ∧ (checkLoop conf now q rf).protectedPeers = rf.protectedPeers
      ∧ (checkLoop conf now q rf).cachedAddrs = rf.cachedAddrs
      ∧ (checkLoop conf now q rf).relayUpdated = rf.relayUpdated := by
  intro q
  induction q with
  | nil => intro rf h; simp [checkLoop, h]
  | cons cand queue ih =>
    intro rf h
    by_cases hafter : cand.nextConnAttempt > now
    · have hp : (!decide (cand.nextConnAttempt > now)) = false := by simp [hafter]
      have hstep : checkLoop conf now (cand :: queue) rf = rf := by
        simp only [checkLoop, hafter, if_true]
      rw [hstep, List.dropWhile_cons, List.takeWhile_cons]
      simp only [hp, h]
      simp
    · have hp : (!decide (cand.nextConnAttempt > now)) = true := by simp [hafter]
      have htail : rf.candidatesOnBackoff.drop 1 = queue := by rw [h]; rfl
      have hlenobj : ((candidateObjs rf).length : Int) = rf.candidates.length := by
        simp [candidateObjs]
      rw [List.dropWhile_cons, List.takeWhile_cons]
      simp only [hp, if_true, List.foldl_cons]
      by_cases hfull : (rf.candidates.length : Int) ≥ conf.maxCandidates
      · have hstep : checkLoop conf now (cand :: queue) rf
            = checkLoop conf now queue
                { rf with candidatesOnBackoff := rf.candidatesOnBackoff.drop 1 } := by
          simp only [checkLoop, hafter, hfull, if_true, if_false]
        have hre : reinsertPopped conf (candidateObjs rf) cand = candidateObjs rf := by
          have hno : ¬ ((candidateObjs rf).length : Int) < conf.maxCandidates := by omega
          unfold reinsertPopped
          rw [if_neg hno]
        rw [hstep, hre]
        exact ih { rf with candidatesOnBackoff := rf.candidatesOnBackoff.drop 1 } htail
      · have hstep : checkLoop conf now (cand :: queue) rf
            = checkLoop conf now queue
                { rf with
                  candidateFound := true
                  candidates := mapSet rf.candidates cand.toCandidate.ai.ID
                    { addr := rf.allocated, obj := cand.toCandidate }
                  allocated := rf.allocated + 1
                  candidatesOnBackoff := rf.candidatesOnBackoff.drop 1 } := by
          simp only [checkLoop, hafter, hfull, if_false, notifyNewCandidate]
        have hre : reinsertPopped conf (candidateObjs rf) cand
            = candidateObjs { rf with
                  candidateFound := true
                  candidates := mapSet rf.candidates cand.toCandidate.ai.ID
                    { addr := rf.allocated, obj := cand.toCandidate }
                  allocated := rf.allocated + 1
                  candidatesOnBackoff := rf.candidatesOnBackoff.drop 1 } := by
          have hyes : ((candidateObjs rf).length : Int) < conf.maxCandidates := by omega
          unfold reinsertPopped
          rw [if_pos hyes]
          exact (map_mapSet (fun c : candidatePtr => c.obj) rf.candidates
            cand.toCandidate.ai.ID { addr := rf.allocated, obj := cand.toCandidate }).symm
        rw [hstep, hre]
        exact ih _ htail

theorem mapGet_reinsert_fold (conf : config) (p : ID) :
    ∀ (es : List candidateOnBackoff) (table : List (ID × candidate)),
      p ∉ backoffIDs es → mapGet (es.foldl (reinsertPopped conf) table) p = mapGet table p := by
  intro es
  induction es with
  | nil => intro table _; rfl
  | cons e es ih =>
    intro table hp
    simp only [backoffIDs, List.map_cons, List.mem_cons, not_or] at hp
    simp only [List.foldl_cons]
    rw [ih _ hp.2]
    unfold reinsertPopped
    split
    · exact mapGet_mapSet_ne _ _ _ _ hp.1
    · rfl

/-- C10: `checkForCandidatesOnBackoff(now)` leaves the backoff queue equal to its suffix that
starts at the first entry whose `nextConnAttempt` is after `now`; the entries before it are
popped in order and each one is either re-inserted into the candidate table with its
`added`, `ai` and `numAttempts` unchanged (when the table holds fewer than `maxCandidates`
entries at that moment) or dropped; the candidates of peers that were not popped, and the
reservation table, are unchanged. -/
theorem checkForCandidatesOnBackoff_sweep (conf : config) (now : Int) (rf : relayFinder) :
    (checkForCandidatesOnBackoff conf now rf).candidatesOnBackoff
        = rf.candidatesOnBackoff.dropWhile (fun e => !decide (e.nextConnAttempt > now))
    ∧ rf.candidatesOnBackoff.takeWhile (fun e => !decide (e.nextConnAttempt > now))
          ++ (checkForCandidatesOnBackoff conf now rf).candidatesOnBackoff
        = rf.candidatesOnBackoff
    ∧ candidateObjs (checkForCandidatesOnBackoff conf now rf)
        = (rf.candidatesOnBackoff.takeWhile (fun e => !decide (e.nextConnAttempt > now))).foldl
            (reinsertPopped conf) (candidateObjs rf)
    ∧ (∀ p : ID,
        p ∉ backoffIDs
            (rf.candidatesOnBackoff.takeWhile (fun e => !decide (e.nextConnAttempt > now))) →
        mapGet (candidateObjs (checkForCandidatesOnBackoff conf now rf)) p
          = mapGet (candidateObjs rf) p)
    ∧ (checkForCandidatesOnBackoff conf now rf).relays = rf.relays := by
  obtain ⟨h1, h2, h3, _⟩ := checkLoop_spec conf now rf.candidatesOnBackoff rf rfl
  refine ⟨h1, ?_, h2, ?_, h3⟩
  · unfold checkForCandidatesOnBackoff
    rw [h1]
    exact List.takeWhile_append_dropWhile _ _
  · intro p hp
    unfold checkForCandidatesOnBackoff
    rw [h2]
    exact mapGet_reinsert_fold conf p _ _ hp

end Autorelay

namespace Autorelay

/-! ## Frame lemmas -/

theorem findNodes_frame (conf : config) (pi : AddrInfo) (rf : relayFinder) :
    (findNodes conf pi rf).relays = rf.relays
    ∧ (findNodes conf pi rf).passes = rf.passes
    ∧ (findNodes conf pi rf).candidates = rf.candidates
    ∧ (findNodes conf pi rf).candidatesOnBackoff = rf.candidatesOnBackoff := by
  unfold findNodes; split <;> simp

theorem relayAddrs_frame (h : host) (now : Int) (addrs : List Multiaddr) (rf : relayFinder) :
    (relayAddrs h now addrs rf).1.relays = rf.relays
    ∧ (relayAddrs h now addrs rf).1.passes = rf.passes
    ∧ (relayAddrs h now addrs rf).1.candidates = rf.candidates
    ∧ (relayAddrs h now addrs rf).1.candidatesOnBackoff = rf.candidatesOnBackoff := by
  unfold relayAddrs
  split
  · split <;> simp
  · simp

theorem handleNewCandidate_cases (conf : config) (k : Nat) (now : Int) (n : Nat)
    (order : List candidatePtr) (rf rf1 : relayFinder)
    (h : handleNewCandidate conf k now n order rf = some rf1) :
    rf1 = rf
    ∨ ((k : Int) ≠ conf.desiredRelays
        ∧ order.Perm (rf.candidates.map Prod.snd)
        ∧ rf1 = { rf with passes := rf.passes ++ [order] }) := by
  unfold handleNewCandidate at h
  by_cases h1 : (k : Int) = conf.desiredRelays
  · rw [if_pos h1] at h; left; exact (Option.some.inj h).symm
  · rw [if_neg h1] at h
    by_cases h2 : rf.candidates.length = 0
    · rw [if_pos h2] at h; left; exact (Option.some.inj h).symm
    · rw [if_neg h2] at h
      by_cases h3 : waitsForQuorum conf now n rf = true
      · rw [if_pos h3] at h; left; exact (Option.some.inj h).symm
      · rw [if_neg h3] at h
        right
        unfold selectCandidates at h
        by_cases h4 : order.isPerm (rf.candidates.map Prod.snd) = true
        · rw [if_pos h4] at h
          exact ⟨h1, List.isPerm_iff.mp h4, (Option.some.inj h).symm⟩
        · rw [if_neg h4] at h
          exact absurd h (by simp)

/-! ## Refresh -/

theorem refresh_fold (reserve : ID → Option Reservation) :
    ∀ (due : List (ID × Reservation)) (acc : relayFinder × Bool),
      (∀ e ∈ due, reserve e.1 ≠ none → e.1 ∈ mapKeys acc.1.relays) →
      ((due.foldl (fun acc e =>
            ((refreshRelayReservation (reserve e.1) e.1 acc.1).1,
              acc.2 || (refreshRelayReservation (reserve e.1) e.1 acc.1).2)) acc).1.relays.length
          ≤ acc.1.relays.length)
      ∧ ((due.foldl (fun acc e =>
            ((refreshRelayReservation (reserve e.1) e.1 acc.1).1,
              acc.2 || (refreshRelayReservation (reserve e.1) e.1 acc.1).2)) acc).2 = false →
          acc.2 = false ∧ ∀ p, p ∈ mapKeys (due.foldl (fun acc e =>
            ((refreshRelayReservation (reserve e.1) e.1 acc.1).1,
              acc.2 || (refreshRelayReservation (reserve e.1) e.1 acc.1).2)) acc).1.relays
            ↔ p ∈ mapKeys acc.1.relays)
      ∧ ((∀ e ∈ due, reserve e.1 ≠ none) →
          (due.foldl (fun acc e =>
            ((refreshRelayReservation (reserve e.1) e.1 acc.1).1,
              acc.2 || (refreshRelayReservation (reserve e.1) e.1 acc.1).2)) acc).2 = acc.2)
      ∧ (due.foldl (fun acc e =>
            ((refreshRelayReservation (reserve e.1) e.1 acc.1).1,
              acc.2 || (refreshRelayReservation (reserve e.1) e.1 acc.1).2)) acc).1.passes
          = acc.1.passes
      ∧ (due.foldl (fun acc e =>
            ((refreshRelayReservation (reserve e.1) e.1 acc.1).1,
              acc.2 || (refreshRelayReservation (reserve e.1) e.1 acc.1).2)) acc).1.cachedAddrs
          = acc.1.cachedAddrs
      ∧ (due.foldl (fun acc e =>
            ((refreshRelayReservation (reserve e.1) e.1 acc.1).1,
              acc.2 || (refreshRelayReservation (reserve e.1) e.1 acc.1).2)) acc).1.candidates
          = acc.1.candidates
      ∧ (due.foldl (fun acc e =>
            ((refreshRelayReservation (reserve e.1) e.1 acc.1).1,
              acc.2 || (refreshRelayReservation (reserve e.1) e.1 acc.1).2)) acc).1.candidatesOnBackoff
          = acc.1.candidatesOnBackoff := by
  intro due
  induction due with
  | nil => intro acc _; simp
  | cons e due ih =>
    intro acc hkeys
    simp only [List.foldl_cons]
    have hmem : reserve e.1 ≠ none → e.1 ∈ mapKeys acc.1.relays :=
      hkeys e (List.mem_cons_self _ _)
    cases hres : reserve e.1 with
    | none =>
      have hnext : ∀ e' ∈ due, reserve e'.1 ≠ none →
          e'.1 ∈ mapKeys ((refreshRelayReservation none e.1 acc.1).1, acc.2 || true).1.relays := by
        intro e' he' hsome
        have h1 := hkeys e' (List.mem_cons_of_mem _ he') hsome
        have hne : e'.1 ≠ e.1 := fun heq => hsome (heq ▸ hres)
        simp only [refreshRelayReservation]
        exact (mem_mapKeys_mapDelete _ _ _).mpr ⟨h1, hne⟩
      obtain ⟨i1, i2, i3, i4, i5, i6, i7⟩ :=
        ih ((refreshRelayReservation none e.1 acc.1).1, acc.2 || true) hnext
      simp only [refreshRelayReservation] at i1 i2 i3 i4 i5 i6 i7 ⊢
      refine ⟨?_, ?_, ?_, i4, i5, i6, i7⟩
      · exact Nat.le_trans i1 (length_mapDelete_le _ _)
      · intro hf
        have := (i2 hf).1
        simp at this
      · intro hall
        exact absurd hres (hall e (List.mem_cons_self _ _))
    | some rsvp =>
      have hin : e.1 ∈ mapKeys acc.1.relays := hmem (by simp [hres])
      have hnext : ∀ e' ∈ due, reserve e'.1 ≠ none →
          e'.1 ∈ mapKeys ((refreshRelayReservation (some rsvp) e.1 acc.1).1,
            acc.2 || false).1.relays := by
        intro e' he' hsome
        have h1 := hkeys e' (List.mem_cons_of_mem _ he') hsome
        simp only [refreshRelayReservation]
        exact (mem_mapKeys_mapSet _ _ _ _).mpr (Or.inr h1)
      obtain ⟨i1, i2, i3, i4, i5, i6, i7⟩ :=
        ih ((refreshRelayReservation (some rsvp) e.1 acc.1).1, acc.2 || false) hnext
      simp only [refreshRelayReservation, Bool.or_false] at i1 i2 i3 i4 i5 i6 i7 ⊢
      refine ⟨?_, ?_, ?_, i4, i5, i6, i7⟩
      · exact Nat.le_trans i1 (length_mapSet_of_mem _ _ _ hin)
      · intro hf
        obtain ⟨h1, h2⟩ := i2 hf
        refine ⟨h1, fun p => ?_⟩
        rw [h2 p, mem_mapKeys_mapSet]
        constructor
        · rintro (h | h)
          · exact h ▸ hin
          · exact h
        · exact Or.inr
      · intro hall
        exact i3 (fun e' he' => hall e' (List.mem_cons_of_mem _ he'))

theorem refreshReservations_spec (reserve : ID → Option Reservation) (now : Int)
    (rf : relayFinder) :
    (refreshReservations reserve now rf).1.relays.length ≤ rf.relays.length
    ∧ ((refreshReservations reserve now rf).2 = false →
        ∀ p, p ∈ mapKeys (refreshReservations reserve now rf).1.relays ↔ p ∈ mapKeys rf.relays)
    ∧ ((∀ p ∈ mapKeys rf.relays, reserve p ≠ none) → (refreshReservations reserve now rf).2 = false)
    ∧ (refreshReservations reserve now rf).1.passes = rf.passes
    ∧ (refreshReservations reserve now rf).1.cachedAddrs = rf.cachedAddrs
    ∧ (refreshReservations reserve now rf).1.candidates = rf.candidates
    ∧ (refreshReservations reserve now rf).1.candidatesOnBackoff = rf.candidatesOnBackoff := by
  have hdue : ∀ e ∈ rf.relays.filter
      (fun e => !decide (now + rsvpExpirationSlack < e.2.Expiration)),
      e.1 ∈ mapKeys rf.relays := by
    intro e he
    exact List.mem_map_of_mem Prod.fst (List.mem_filter.mp he).1
  obtain ⟨i1, i2, i3, i4, i5, i6, i7⟩ := refresh_fold reserve
    (rf.relays.filter (fun e => !decide (now + rsvpExpirationSlack < e.2.Expiration)))
    (rf, false) (fun e he _ => hdue e he)
  refine ⟨i1, fun hf => (i2 hf).2, ?_, i4, i5, i6, i7⟩
  intro hall
  exact i3 (fun e he => hall e.1 (hdue e he))

end Autorelay

namespace Autorelay

/-! ## One iteration of a reservation pass -/

theorem moveCandidateToBackoff_cases (conf : config) (now : Int) (r : Fin 8) (cand : candidate)
    (rf rf2 : relayFinder) (h : moveCandidateToBackoff conf now r cand rf = some rf2) :
    rf2 = rf
    ∨ ((rf.candidatesOnBackoff.length : Int) < conf.maxCandidates
        ∧ ∃ t : Int, rf2 = { rf with
            candidatesOnBackoff := rf.candidatesOnBackoff ++
              [{ toCandidate := cand, nextConnAttempt := t }] }) := by
  unfold moveCandidateToBackoff at h
  by_cases h1 : (rf.candidatesOnBackoff.length : Int) ≥ conf.maxCandidates
  · rw [if_pos h1] at h; left; exact (Option.some.inj h).symm
  · rw [if_neg h1] at h
    by_cases h2 : cand.numAttempts - 1 < 0
    · rw [if_pos h2] at h; exact absurd h (by simp)
    · rw [if_neg h2] at h
      right
      exact ⟨by omega, _, (Option.some.inj h).symm⟩

theorem moveCandidateToBackoff_isSome (conf : config) (now : Int) (r : Fin 8) (cand : candidate)
    (rf : relayFinder) (hk : 1 ≤ cand.numAttempts) :
    ∃ rf2, moveCandidateToBackoff conf now r cand rf = some rf2 := by
  unfold moveCandidateToBackoff
  by_cases h1 : (rf.candidatesOnBackoff.length : Int) ≥ conf.maxCandidates
  · rw [if_pos h1]; exact ⟨_, rfl⟩
  · rw [if_neg h1]
    have h2 : ¬ cand.numAttempts - 1 < 0 := by omega
    rw [if_neg h2]; exact ⟨_, rfl⟩

theorem passIteration_inv (conf : config) (i : Nat) (out : attempt) (rf rf1 : relayFinder)
    (h : passIteration conf i out rf = some rf1) :
    ∃ cand rest, rf.passes.get? i = some (cand :: rest) ∧
      ((out = attempt.reconnectFailed
          ∧ rf1 = continuePass { rf with candidates := mapDelete rf.candidates cand.obj.ai.ID }
              i rest)
      ∨ (∃ now r, out = attempt.reserveFailed now r
          ∧ cand.obj.numAttempts + 1 ≥ conf.maxAttempts
          ∧ rf1 = continuePass
              { rf with
                passes := rf.passes.map (List.map (bumpAttempts cand.addr))
                candidates := mapDelete rf.candidates cand.obj.ai.ID }
              i (rest.map (bumpAttempts cand.addr)))
      ∨ (∃ now r rf2, out = attempt.reserveFailed now r
          ∧ cand.obj.numAttempts + 1 < conf.maxAttempts
          ∧ moveCandidateToBackoff conf now r
              { cand.obj with numAttempts := cand.obj.numAttempts + 1 }
              { rf with
                passes := rf.passes.map (List.map (bumpAttempts cand.addr))
                candidates := mapDelete rf.candidates cand.obj.ai.ID } = some rf2
          ∧ rf1 = continuePass rf2 i (rest.map (bumpAttempts cand.addr)))
      ∨ (∃ rsvp, out = attempt.reserved rsvp
          ∧ ((mapSet rf.relays cand.obj.ai.ID rsvp).length : Int) ≥ conf.desiredRelays
          ∧ rf1 = breakPass
              { rf with
                relays := mapSet rf.relays cand.obj.ai.ID rsvp
                protectedPeers := Protect rf.protectedPeers cand.obj.ai.ID
                relayUpdated := true } i)
      ∨ (∃ rsvp, out = attempt.reserved rsvp
          ∧ ((mapSet rf.relays cand.obj.ai.ID rsvp).length : Int) < conf.desiredRelays
          ∧ rf1 = continuePass
              { rf with
                relays := mapSet rf.relays cand.obj.ai.ID rsvp
                protectedPeers := Protect rf.protectedPeers cand.obj.ai.ID
                relayUpdated := true } i rest)) := by
  unfold passIteration at h
  cases hp : rf.passes.get? i with
  | none => rw [hp] at h; exact absurd h (by simp)
  | some pass =>
    cases pass with
    | nil => rw [hp] at h; exact absurd h (by simp)
    | cons cand rest =>
      rw [hp] at h
      refine ⟨cand, rest, rfl, ?_⟩
      cases out with
      | reconnectFailed =>
        left
        exact ⟨rfl, (Option.some.inj h).symm⟩
      | reserveFailed now r =>
        right
        by_cases hmax : cand.obj.numAttempts + 1 ≥ conf.maxAttempts
        · left
          simp only [hmax, if_true] at h
          exact ⟨now, r, rfl, hmax, (Option.some.inj h).symm⟩
        · right; left
          simp only [hmax, if_false] at h
          cases hm : moveCandidateToBackoff conf now r
              { cand.obj with numAttempts := cand.obj.numAttempts + 1 }
              { rf with
                passes := rf.passes.map (List.map (bumpAttempts cand.addr))
                candidates := mapDelete rf.candidates cand.obj.ai.ID } with
          | none => rw [hm] at h; exact absurd h (by simp)
          | some rf2 =>
            rw [hm] at h
            exact ⟨now, r, rf2, rfl, by omega, hm, (Option.some.inj h).symm⟩
      | reserved rsvp =>
        right; right; right
        by_cases hd : ((mapSet rf.relays cand.obj.ai.ID rsvp).length : Int) ≥ conf.desiredRelays
        · left
          simp only [hd, if_true] at h
          exact ⟨rsvp, rfl, hd, (Option.some.inj h).symm⟩
        · right
          simp only [hd, if_false] at h
          exact ⟨rsvp, rfl, by omega, (Option.some.inj h).symm⟩

theorem continuePass_frame (rf : relayFinder) (i : Nat) (rest : List candidatePtr) :
    (continuePass rf i rest).relays = rf.relays
    ∧ (continuePass rf i rest).candidates = rf.candidates
    ∧ (continuePass rf i rest).candidatesOnBackoff = rf.candidatesOnBackoff
    ∧ (continuePass rf i rest).protectedPeers = rf.protectedPeers
    ∧ (continuePass rf i rest).cachedAddrs = rf.cachedAddrs := by
  unfold continuePass; split <;> simp

end Autorelay

namespace Autorelay

/-! ## The supervisor loop -/

theorem background_inv (conf : config) (ev : event) (rf rf1 : relayFinder)
    (h : background conf ev rf = some rf1) :
    ∃ r : relayFinder × Bool, selectCase conf ev rf = some r
      ∧ rf1.relays = r.1.relays ∧ rf1.passes = r.1.passes
      ∧ rf1.candidates = r.1.candidates
      ∧ rf1.candidatesOnBackoff = r.1.candidatesOnBackoff
      ∧ (r.2 = true → rf1.cachedAddrs = none)
      ∧ (r.2 = false → rf1 = r.1) := by
  unfold background at h
  cases hs : selectCase conf ev rf with
  | none => rw [hs] at h; exact absurd h (by simp)
  | some r =>
    rw [hs] at h
    have h1 : rf1 = (if r.2 = true then
        { r.1 with cachedAddrs := none, addressChanges := r.1.addressChanges + 1 } else r.1) :=
      (Option.some.inj h).symm
    refine ⟨r, rfl, ?_⟩
    cases hr : r.2 with
    | true => rw [hr] at h1; subst h1; simp
    | false => rw [hr] at h1; subst h1; simp

/-! ## Steps -/

theorem step_act (conf : config) (a : action) (rf rf1 : relayFinder)
    (h : step conf a rf = some rf1) : act conf a rf = some rf1 := by
  unfold step at h
  by_cases ht : tickersStart conf = true
  · rw [if_pos ht] at h; exact h
  · rw [if_neg ht] at h; exact absurd h (by simp)

theorem act_supervisor (conf : config) (ev : event) (rf rf1 : relayFinder)
    (h : act conf (action.supervisor ev) rf = some rf1) :
    rf.deciding = none ∧ background conf ev rf = some rf1 := by
  simp only [act] at h
  cases hd : rf.deciding with
  | none => rw [hd] at h; exact ⟨rfl, h⟩
  | some k => rw [hd] at h; exact absurd h (by simp)

theorem act_startPass (conf : config) (now : Int) (n : Nat) (order : List candidatePtr)
    (rf rf1 : relayFinder) (h : act conf (action.startPass now n order) rf = some rf1) :
    ∃ k, rf.deciding = some k
      ∧ handleNewCandidate conf k now n order { rf with deciding := none } = some rf1 := by
  simp only [act] at h
  cases hd : rf.deciding with
  | none => rw [hd] at h; exact absurd h (by simp)
  | some k => rw [hd] at h; exact ⟨k, rfl, h⟩

theorem stepSerial_inv (conf : config) (a : action) (rf rf1 : relayFinder)
    (h : stepSerial conf a rf = some rf1) :
    step conf a rf = some rf1 ∧ rf1.passes.length ≤ 1 := by
  unfold stepSerial at h
  cases hs : step conf a rf with
  | none => rw [hs] at h; exact absurd h (by simp)
  | some rf2 =>
    rw [hs] at h
    simp only [Option.some_bind] at h
    by_cases hl : rf2.passes.length ≤ 1
    · rw [if_pos hl] at h
      have : rf2 = rf1 := Option.some.inj h
      subst this
      exact ⟨rfl, hl⟩
    · rw [if_neg hl] at h; exact absurd h (by simp)

theorem singleton_of_get? {α : Type} (l : List α) (i : Nat) (x : α) (hl : l.length ≤ 1)
    (h : l.get? i = some x) : i = 0 ∧ l = [x] := by
  match l, hl, h with
  | [y], _, h =>
    cases i with
    | zero => simp at h; exact ⟨rfl, by rw [h]⟩
    | succ n => simp at h

/-! ## The reservation cap -/

/-- C3 (failing input): with `desiredRelays = 1`, in `twoPassRun` two new-candidate
notifications each start a reservation pass, the second while the first is still in flight,
and each pass obtains one reservation; in `staleRun` the two passes are never in flight
together, but the second is started on a count of relays read before the first pass inserted
its reservation. In both runs the reservation table ends with the two entries 1 and 2. -/
theorem reservation_cap_exceeded :
    (run sampleConf twoPassRun (newRelayFinder 0)).map (fun s => mapKeys s.relays)
      = some [1, 2]
    ∧ (runSerial sampleConf staleRun (newRelayFinder 0)).map (fun s => mapKeys s.relays)
      = some [1, 2]
    ∧ sampleConf.desiredRelays = 1 := by
  decide

end Autorelay

namespace Autorelay

/-! ## The cached address set -/

theorem usingRelay_eq_of_keys (rf rf1 : relayFinder)
    (h : ∀ p, p ∈ mapKeys rf1.relays ↔ p ∈ mapKeys rf.relays) (p : ID) :
    usingRelay rf1 p = usingRelay rf p := by
  unfold usingRelay
  rw [Bool.eq_iff_iff, mapHas_iff, mapHas_iff]
  exact h p

theorem push_of_relay_set_change (conf : config) (ev : event) (rf : relayFinder)
    (r : relayFinder × Bool) (hs : selectCase conf ev rf = some r)
    (hchg : (∃ p, usingRelay r.1 p ≠ usingRelay rf p) ∨ ev = event.relayUpdated) :
    r.2 = true := by
  have hsame : r.1.relays = rf.relays → ev ≠ event.relayUpdated → r.2 = true := by
    intro hrel hne
    rcases hchg with ⟨p, hp⟩ | hu
    · exact absurd (by unfold usingRelay; rw [hrel]) hp
    · exact absurd hu hne
  cases ev with
  | connectednessChanged p c =>
    simp only [selectCase] at hs
    by_cases hc : c ≠ Connectedness.NotConnected
    · rw [if_pos hc] at hs
      have : r = (rf, false) := (Option.some.inj hs).symm
      subst this; exact hsame rfl (by simp)
    · rw [if_neg hc] at hs
      by_cases hu : usingRelay rf p = true
      · rw [if_pos hu] at hs
        have : r = ({ rf with relays := mapDelete rf.relays p }, true) :=
          (Option.some.inj hs).symm
        subst this; rfl
      · rw [if_neg hu] at hs
        have : r = (rf, false) := (Option.some.inj hs).symm
        subst this; exact hsame rfl (by simp)
  | candidateFound =>
    simp only [selectCase] at hs
    by_cases hf : rf.candidateFound = true
    · rw [if_pos hf] at hs
      have : r = ({ rf with candidateFound := false, deciding := some rf.relays.length },
          false) := (Option.some.inj hs).symm
      subst this; exact hsame rfl (by simp)
    · rw [if_neg hf] at hs; exact absurd hs (by simp)
  | bootDelayTimer =>
    simp only [selectCase] at hs
    have : r = ({ rf with deciding := some rf.relays.length }, false) :=
      (Option.some.inj hs).symm
    subst this; exact hsame rfl (by simp)
  | relayUpdated =>
    simp only [selectCase] at hs
    by_cases hf : rf.relayUpdated = true
    · rw [if_pos hf] at hs
      have : r = ({ rf with relayUpdated := false }, true) := (Option.some.inj hs).symm
      subst this; rfl
    · rw [if_neg hf] at hs; exact absurd hs (by simp)
  | refreshTicker now reserve =>
    simp only [selectCase] at hs
    have hr : r = refreshReservations reserve now rf := (Option.some.inj hs).symm
    subst hr
    obtain ⟨_, i2, _⟩ := refreshReservations_spec reserve now rf
    cases hb : (refreshReservations reserve now rf).2 with
    | true => rfl
    | false =>
      rcases hchg with ⟨p, hp⟩ | hu
      · exact absurd (usingRelay_eq_of_keys rf _ (i2 hb) p) hp
      · exact absurd hu (by simp)
  | backoffTicker now =>
    simp only [selectCase] at hs
    have hr : r = (checkForCandidatesOnBackoff conf now rf, false) := (Option.some.inj hs).symm
    subst hr
    obtain ⟨_, _, c3, _⟩ := checkLoop_spec conf now rf.candidatesOnBackoff rf rfl
    exact hsame c3 (by simp)

theorem relayAddrs_of_cleared (hst : host) (now : Int) (addrs : List Multiaddr)
    (rf : relayFinder) (h : rf.cachedAddrs = none) :
    (relayAddrs hst now addrs rf).2 = computeRelayAddrs hst addrs rf.relays := by
  unfold relayAddrs
  rw [h]

/-- C6 (counterexample): the reservation with peer 1 expires at 90 s and an address set was
cached at 50 s; at the refresh tick at 60 s `Reserve` succeeds and the reservation is
replaced, but `push` stays false: the cached address set is still in place after the
iteration, and `relayAddrs` at 61 s returns it without recomputing (the cache expiry is
still 80 s). -/
theorem refresh_replace_keeps_cache :
    run sampleConf refreshRun (newRelayFinder 0) = some refreshedState
    ∧ refreshedState.relays = [(1, sampleRsvp 3600000000000)]
    ∧ refreshedState.cachedAddrs = some [1101]
    ∧ relayAddrs sampleHost 61000000000 [] refreshedState = (refreshedState, [1101]) := by
  decide

/-- C6 (amended): after a supervisor iteration that changed which peers are in the
reservation table (a reservation was deleted: `NotConnected` event of a relay, or a refresh
tick at which a `Reserve` failed), or that received the relay-updated notification posted by
a reservation pass after an insert, the cached address set is cleared and the next
`relayAddrs` call computes its result from the current reservation table. A refresh tick at
which every `Reserve` succeeds replaces reservations, keeps the same relay peers and leaves
the cached address set as it was. -/
theorem cache_cleared_on_relay_set_change (conf : config) (ev : event) (rf rf1 : relayFinder)
    (h : background conf ev rf = some rf1) :
    (((∃ p, usingRelay rf1 p ≠ usingRelay rf p) ∨ ev = event.relayUpdated) →
      rf1.cachedAddrs = none
      ∧ ∀ (hst : host) (now : Int) (addrs : List Multiaddr),
          (relayAddrs hst now addrs rf1).2 = computeRelayAddrs hst addrs rf1.relays)
    ∧ (∀ (now : Int) (reserve : ID → Option Reservation),
        ev = event.refreshTicker now reserve →
        (∀ p ∈ mapKeys rf.relays, reserve p ≠ none) →
        rf1.cachedAddrs = rf.cachedAddrs ∧ ∀ p, usingRelay rf1 p = usingRelay rf p) := by
  obtain ⟨r, hs, e1, _, _, _, hpush, hkeep⟩ := background_inv conf ev rf rf1 h
  constructor
  · intro hchg
    have hchg1 : (∃ p, usingRelay r.1 p ≠ usingRelay rf p) ∨ ev = event.relayUpdated := by
      rcases hchg with ⟨p, hp⟩ | hu
      · left; refine ⟨p, ?_⟩
        unfold usingRelay at hp ⊢
        rw [← e1]; exact hp
      · exact Or.inr hu
    have hclear := hpush (push_of_relay_set_change conf ev rf r hs hchg1)
    exact ⟨hclear, fun hst now addrs => relayAddrs_of_cleared hst now addrs rf1 hclear⟩
  · intro now reserve hev hall
    subst hev
    simp only [selectCase] at hs
    have hr : r = refreshReservations reserve now rf := (Option.some.inj hs).symm
    subst hr
    obtain ⟨_, i2, i3, _, i5, _⟩ := refreshReservations_spec reserve now rf
    have hfalse := i3 hall
    have heq := hkeep hfalse
    subst heq
    exact ⟨i5, usingRelay_eq_of_keys rf _ (i2 hfalse)⟩

/-- C6 (witness): the `NotConnected` event of the relay peer 1 in `refreshedState` removes
the peer from the reservation table and clears the cached address set. -/
theorem cache_cleared_on_relay_set_change_witness :
    background sampleConf (event.connectednessChanged 1 Connectedness.NotConnected)
        refreshedState = some disconnectedState
    ∧ usingRelay disconnectedState 1 ≠ usingRelay refreshedState 1
    ∧ disconnectedState.cachedAddrs = none :=
  ⟨by decide, by decide,
   ((cache_cleared_on_relay_set_change sampleConf
      (event.connectednessChanged 1 Connectedness.NotConnected) refreshedState
      disconnectedState (by decide)).1 (Or.inl ⟨1, by decide⟩)).1⟩

end Autorelay

namespace Autorelay

/-! ## Well-formed states -/

theorem mem_mapDelete {β : Type} (m : List (ID × β)) (k : ID) (e : ID × β) :
    e ∈ mapDelete m k ↔ e ∈ m ∧ e.1 ≠ k := by
  simp [mapDelete]

theorem mem_mapSet {β : Type} (m : List (ID × β)) (k : ID) (v : β) (e : ID × β) :
    e ∈ mapSet m k v ↔ (e ∈ m ∧ e.1 ≠ k) ∨ e = (k, v) := by
  simp [mapSet, mapDelete]

theorem tableInv_delete (cands : List (ID × candidatePtr)) (alloc : Nat) (k : ID)
    (h : tableInv cands alloc) : tableInv (mapDelete cands k) alloc := by
  obtain ⟨h1, h2, h3, h4⟩ := h
  refine ⟨?_, ?_, ?_, ?_⟩
  · intro e he; exact h1 e ((mem_mapDelete _ _ _).mp he).1
  · rw [mapKeys_mapDelete]; exact h2.filter _
  · intro e he; exact h3 e ((mem_mapDelete _ _ _).mp he).1
  · exact h4.sublist ((List.filter_sublist _).map _)

theorem tableInv_insert (cands : List (ID × candidatePtr)) (alloc : Nat) (k : ID)
    (obj : candidate) (hid : obj.ai.ID = k) (h : tableInv cands alloc) :
    tableInv (mapSet cands k { addr := alloc, obj := obj }) (alloc + 1) := by
  obtain ⟨h1, h2, h3, h4⟩ := h
  refine ⟨?_, ?_, ?_, ?_⟩
  · intro e he
    rcases (mem_mapSet _ _ _ _).mp he with ⟨hm, _⟩ | heq
    · exact h1 e hm
    · rw [heq]; exact hid
  · rw [mapKeys_mapSet]
    refine List.Nodup.append (h2.filter _) (List.nodup_singleton k) ?_
    intro x hx hk
    simp only [List.mem_singleton] at hk
    simp [hk] at hx
  · intro e he
    rcases (mem_mapSet _ _ _ _).mp he with ⟨hm, _⟩ | heq
    · exact Nat.lt_succ_of_lt (h3 e hm)
    · rw [heq]; exact Nat.lt_succ_self _
  · unfold mapSet
    rw [List.map_append]
    refine List.Nodup.append ((tableInv_delete cands alloc k ⟨h1, h2, h3, h4⟩).2.2.2)
      (List.nodup_singleton _) ?_
    intro x hx ha
    simp only [List.map_cons, List.map_nil, List.mem_singleton] at ha
    obtain ⟨e, he, hxe⟩ := List.mem_map.mp hx
    have := h3 e ((mem_mapDelete _ _ _).mp he).1
    omega

theorem bumpAttempts_id (a : Nat) (c : candidatePtr) :
    (bumpAttempts a c).obj.ai = c.obj.ai ∧ (bumpAttempts a c).addr = c.addr := by
  unfold bumpAttempts; split <;> simp

theorem map_bump_ids (a : Nat) (pass : List candidatePtr) :
    (pass.map (bumpAttempts a)).map (fun c => c.obj.ai.ID) = pass.map (fun c => c.obj.ai.ID) := by
  rw [List.map_map]
  apply List.map_congr_left
  intro c _
  simp [(bumpAttempts_id a c).1]

theorem map_bump_addrs (a : Nat) (pass : List candidatePtr) :
    (pass.map (bumpAttempts a)).map (fun c => c.addr) = pass.map (fun c => c.addr) := by
  rw [List.map_map]
  apply List.map_congr_left
  intro c _
  simp [(bumpAttempts_id a c).2]

theorem passInv_bump (a : Nat) (pass : List candidatePtr) (h : passInv pass) :
    passInv (pass.map (bumpAttempts a)) := by
  unfold passInv
  rw [map_bump_ids, map_bump_addrs]
  exact h

theorem passInv_tail (cand : candidatePtr) (rest : List candidatePtr)
    (h : passInv (cand :: rest)) : passInv rest := by
  obtain ⟨h1, h2⟩ := h
  simp only [List.map_cons, List.nodup_cons] at h1 h2
  exact ⟨h1.2, h2.2⟩

theorem mem_continuePass (rf : relayFinder) (i : Nat) (rest pass : List candidatePtr)
    (h : pass ∈ (continuePass rf i rest).passes) : pass = rest ∨ pass ∈ rf.passes := by
  unfold continuePass at h
  split at h
  · exact Or.inr (List.mem_of_mem_eraseIdx h)
  · exact (List.mem_or_eq_of_mem_set h).symm.imp id id

theorem continuePass_allocated (rf : relayFinder) (i : Nat) (rest : List candidatePtr) :
    (continuePass rf i rest).allocated = rf.allocated := by
  unfold continuePass; split <;> rfl

theorem tableInv_of_perm (rf : relayFinder) (order : List candidatePtr)
    (h : tableInv rf.candidates rf.allocated) (hperm : order.Perm (rf.candidates.map Prod.snd)) :
    passInv order := by
  obtain ⟨h1, h2, _, h4⟩ := h
  constructor
  · have hp := hperm.map (fun c : candidatePtr => c.obj.ai.ID)
    refine hp.nodup_iff.mpr ?_
    have : (rf.candidates.map Prod.snd).map (fun c : candidatePtr => c.obj.ai.ID)
        = mapKeys rf.candidates := by
      rw [List.map_map]
      apply List.map_congr_left
      intro e he
      exact h1 e he
    rw [this]; exact h2
  · have hp := hperm.map (fun c : candidatePtr => c.addr)
    refine hp.nodup_iff.mpr ?_
    rw [List.map_map]
    exact h4

theorem checkLoop_tableInv (conf : config) (now : Int) :
    ∀ (q : List candidateOnBackoff) (rf : relayFinder),
      tableInv rf.candidates rf.allocated →
      tableInv (checkLoop conf now q rf).candidates (checkLoop conf now q rf).allocated := by
  intro q
  induction q with
  | nil => intro rf h; exact h
  | cons cand queue ih =>
    intro rf h
    by_cases hafter : cand.nextConnAttempt > now
    · simp only [checkLoop, hafter, if_true]; exact h
    · by_cases hfull : (rf.candidates.length : Int) ≥ conf.maxCandidates
      · simp only [checkLoop, hafter, hfull, if_true, if_false]
        exact ih _ h
      · simp only [checkLoop, hafter, hfull, if_false, notifyNewCandidate]
        exact ih _ (tableInv_insert rf.candidates rf.allocated _ _ rfl h)

theorem step_wellFormed (conf : config) (a : action) (rf rf1 : relayFinder)
    (hstep : step conf a rf = some rf1) (hw : wellFormed rf) : wellFormed rf1 := by
  have h := step_act conf a rf rf1 hstep
  obtain ⟨ht, hp⟩ := hw
  cases a with
  | found pi =>
    have h1 : rf1 = findNodes conf pi rf := (Option.some.inj h).symm
    subst h1
    unfold findNodes; split
    · exact ⟨ht, hp⟩
    · exact ⟨ht, hp⟩
  | startPass now n order =>
    obtain ⟨k, _, hh⟩ := act_startPass conf now n order rf rf1 h
    rcases handleNewCandidate_cases conf k now n order _ rf1 hh with h2 | ⟨_, hperm, h2⟩
    · subst h2; exact ⟨ht, hp⟩
    · subst h2
      refine ⟨ht, fun pass hpass => ?_⟩
      rcases List.mem_append.mp hpass with hm | hm
      · exact hp pass hm
      · rw [List.mem_singleton.mp hm]
        exact tableInv_of_perm { rf with deciding := none } order ht hperm
  | probed j ok =>
    simp only [act] at h
    cases hg : rf.probing.get? j with
    | none => rw [hg] at h; exact absurd h (by simp)
    | some pr =>
      rw [hg] at h
      have h1 : rf1 = handleNewNode conf pr.1 pr.2 ok
          { rf with probing := rf.probing.eraseIdx j } := (Option.some.inj h).symm
      subst h1
      unfold handleNewNode notifyNewCandidate
      split
      · exact ⟨ht, hp⟩
      · split
        · exact ⟨ht, hp⟩
        · split
          · exact ⟨ht, hp⟩
          · exact ⟨tableInv_insert rf.candidates rf.allocated _ _ rfl ht, hp⟩
  | addrs hst now addrs =>
    have h1 : rf1 = (relayAddrs hst now addrs rf).1 := (Option.some.inj h).symm
    subst h1
    unfold relayAddrs
    split
    · split
      · exact ⟨ht, hp⟩
      · exact ⟨ht, hp⟩
    · exact ⟨ht, hp⟩
  | supervisor ev =>
    have hback : ∀ r : relayFinder × Bool, wellFormed r.1 →
        wellFormed (if r.2 = true then
          { r.1 with cachedAddrs := none, addressChanges := r.1.addressChanges + 1 }
          else r.1) := by
      intro r hr; split
      · exact hr
      · exact hr
    have h := (act_supervisor conf ev rf rf1 h).2
    simp only [background] at h
    cases hs : selectCase conf ev rf with
    | none => rw [hs] at h; exact absurd h (by simp)
    | some r =>
      rw [hs] at h
      have h1 := (Option.some.inj h).symm
      subst h1
      apply hback
      cases ev with
      | connectednessChanged p c =>
        simp only [selectCase] at hs
        split at hs
        · rw [← Option.some.inj hs]; exact ⟨ht, hp⟩
        · split at hs
          · rw [← Option.some.inj hs]; exact ⟨ht, hp⟩
          · rw [← Option.some.inj hs]; exact ⟨ht, hp⟩
      | candidateFound =>
        simp only [selectCase] at hs
        split at hs
        · rw [← Option.some.inj hs]; exact ⟨ht, hp⟩
        · exact absurd hs (by simp)
      | bootDelayTimer =>
        simp only [selectCase] at hs
        rw [← Option.some.inj hs]; exact ⟨ht, hp⟩
      | relayUpdated =>
        simp only [selectCase] at hs
        split at hs
        · rw [← Option.some.inj hs]; exact ⟨ht, hp⟩
        · exact absurd hs (by simp)
      | refreshTicker now reserve =>
        simp only [selectCase] at hs
        rw [← Option.some.inj hs]
        obtain ⟨_, _, _, i4, _, i6, _⟩ := refreshReservations_spec reserve now rf
        have hall : (refreshReservations reserve now rf).1.allocated = rf.allocated := by
          unfold refreshReservations
          generalize (rf.relays.filter _) = due
          suffices hgen : ∀ (due : List (ID × Reservation)) (acc : relayFinder × Bool),
              (due.foldl (fun acc e =>
                ((refreshRelayReservation (reserve e.1) e.1 acc.1).1,
                  acc.2 || (refreshRelayReservation (reserve e.1) e.1 acc.1).2)) acc).1.allocated
                = acc.1.allocated from hgen due (rf, false)
          intro due
          induction due with
          | nil => intro acc; rfl
          | cons e due ih =>
            intro acc
            simp only [List.foldl_cons]
            rw [ih]
            unfold refreshRelayReservation
            split <;> rfl
        unfold wellFormed
        rw [i4, i6, hall]
        exact ⟨ht, hp⟩
      | backoffTicker now =>
        simp only [selectCase] at hs
        rw [← Option.some.inj hs]
        obtain ⟨_, _, _, c4, _⟩ := checkLoop_spec conf now rf.candidatesOnBackoff rf rfl
        refine ⟨checkLoop_tableInv conf now rf.candidatesOnBackoff rf ht, ?_⟩
        show ∀ pass ∈ (checkLoop conf now rf.candidatesOnBackoff rf).passes, passInv pass
        rw [c4]; exact hp
  | pass i out =>
    obtain ⟨cand, rest, hget, hcases⟩ := passIteration_inv conf i out rf rf1 h
    have hcr : passInv (cand :: rest) := hp _ (List.get?_mem hget)
    have hrest := passInv_tail cand rest hcr
    have hbump : ∀ pass ∈ rf.passes.map (List.map (bumpAttempts cand.addr)), passInv pass := by
      intro pass hpass
      obtain ⟨p0, hp0, heq⟩ := List.mem_map.mp hpass
      rw [← heq]; exact passInv_bump _ _ (hp p0 hp0)
    rcases hcases with ⟨_, h1⟩ | ⟨_, _, _, _, h1⟩ | ⟨_, _, rf2, _, _, hm, h1⟩
        | ⟨rsvp, _, _, h1⟩ | ⟨rsvp, _, hd, h1⟩
    · subst h1
      obtain ⟨_, f2, _⟩ := continuePass_frame
        { rf with candidates := mapDelete rf.candidates cand.obj.ai.ID } i rest
      unfold wellFormed
      rw [f2, continuePass_allocated]
      refine ⟨tableInv_delete _ _ _ ht, fun pass hpass => ?_⟩
      rcases mem_continuePass _ _ _ _ hpass with hm | hm
      · rw [hm]; exact hrest
      · exact hp pass hm
    · subst h1
      obtain ⟨_, f2, _⟩ := continuePass_frame
        { rf with
          passes := rf.passes.map (List.map (bumpAttempts cand.addr))
          candidates := mapDelete rf.candidates cand.obj.ai.ID }
        i (rest.map (bumpAttempts cand.addr))
      unfold wellFormed
      rw [f2, continuePass_allocated]
      refine ⟨tableInv_delete _ _ _ ht, fun pass hpass => ?_⟩
      rcases mem_continuePass _ _ _ _ hpass with hm | hm
      · rw [hm]; exact passInv_bump _ _ hrest
      · exact hbump pass hm
    · subst h1
      obtain ⟨_, f2, _⟩ := continuePass_frame rf2 i (rest.map (bumpAttempts cand.addr))
      have hrf2 : rf2.candidates = mapDelete rf.candidates cand.obj.ai.ID
          ∧ rf2.allocated = rf.allocated
          ∧ rf2.passes = rf.passes.map (List.map (bumpAttempts cand.addr)) := by
        rcases moveCandidateToBackoff_cases _ _ _ _ _ _ hm with h2 | ⟨_, _, h2⟩ <;>
          rw [h2] <;> exact ⟨rfl, rfl, rfl⟩
      unfold wellFormed
      rw [f2, continuePass_allocated, hrf2.1, hrf2.2.1]
      refine ⟨tableInv_delete _ _ _ ht, fun pass hpass => ?_⟩
      rcases mem_continuePass _ _ _ _ hpass with hm1 | hm1
      · rw [hm1]; exact passInv_bump _ _ hrest
      · rw [hrf2.2.2] at hm1; exact hbump pass hm1
    · subst h1
      refine ⟨ht, fun pass hpass => ?_⟩
      exact hp pass (List.mem_of_mem_eraseIdx hpass)
    · subst h1
      obtain ⟨_, f2, _⟩ := continuePass_frame
        { rf with
          relays := mapSet rf.relays cand.obj.ai.ID rsvp
          protectedPeers := Protect rf.protectedPeers cand.obj.ai.ID
          relayUpdated := true } i rest
      unfold wellFormed
      rw [f2, continuePass_allocated]
      refine ⟨ht, fun pass hpass => ?_⟩
      rcases mem_continuePass _ _ _ _ hpass with hm | hm
      · rw [hm]; exact hrest
      · exact hp pass hm

end Autorelay

namespace Autorelay

/-! ## One peer across the candidate table, the backoff queue and the passes -/

theorem mapKeys_candidateObjs (rf : relayFinder) :
    mapKeys (candidateObjs rf) = mapKeys rf.candidates := by
  simp [candidateObjs, mapKeys, List.map_map, Function.comp_def]

theorem map_mapDelete {β γ : Type} (f : β → γ) (m : List (ID × β)) (k : ID) :
    (mapDelete m k).map (fun e => (e.1, f e.2)) = mapDelete (m.map (fun e => (e.1, f e.2))) k := by
  simp [mapDelete, List.filter_map, Function.comp_def]

theorem mem_passIDs (pass : List candidatePtr) (p : ID) :
    p ∈ passIDs pass ↔ ∃ c ∈ pass, c.obj.ai.ID = p := by
  simp [passIDs]

theorem mem_backoffIDs (Q : List candidateOnBackoff) (p : ID) :
    p ∈ backoffIDs Q ↔ ∃ b ∈ Q, b.toCandidate.ai.ID = p := by
  simp [backoffIDs]

theorem mem_fold_reinsert (conf : config) :
    ∀ (es : List candidateOnBackoff) (T : List (ID × candidate)) (e : ID × candidate),
      e ∈ es.foldl (reinsertPopped conf) T →
      e ∈ T ∨ ∃ b ∈ es, e = (b.toCandidate.ai.ID, b.toCandidate) := by
  intro es
  induction es with
  | nil => intro T e h; exact Or.inl h
  | cons b es ih =>
    intro T e h
    simp only [List.foldl_cons] at h
    rcases ih _ e h with h1 | ⟨b1, hb1, he⟩
    · unfold reinsertPopped at h1
      split at h1
      · rcases (mem_mapSet _ _ _ _).mp h1 with ⟨hm, _⟩ | heq
        · exact Or.inl hm
        · exact Or.inr ⟨b, List.mem_cons_self _ _, heq⟩
      · exact Or.inl h1
    · exact Or.inr ⟨b1, List.mem_cons_of_mem _ hb1, he⟩

theorem mem_keys_fold_reinsert (conf : config) (es : List candidateOnBackoff)
    (T : List (ID × candidate)) (p : ID)
    (h : p ∈ mapKeys (es.foldl (reinsertPopped conf) T)) :
    p ∈ mapKeys T ∨ p ∈ backoffIDs es := by
  obtain ⟨e, he, hp⟩ := List.mem_map.mp h
  rcases mem_fold_reinsert conf es T e he with h1 | ⟨b, hb, heq⟩
  · exact Or.inl (List.mem_map.mpr ⟨e, h1, hp⟩)
  · right
    rw [mem_backoffIDs]
    refine ⟨b, hb, ?_⟩
    rw [← hp, heq]

theorem exclusiveT_insert (p k : ID) (obj : candidate) (T : List (ID × candidate))
    (Q : List candidateOnBackoff) (Ps : List (List candidatePtr))
    (h : exclusiveT p T Q Ps) (hk : k = p → p ∉ backoffIDs Q) :
    exclusiveT p (mapSet T k obj) Q Ps := by
  obtain ⟨h1, h2, h3⟩ := h
  refine ⟨fun hp => ?_, h2, h3⟩
  rcases (mem_mapKeys_mapSet _ _ _ _).mp hp with heq | hm
  · exact hk heq.symm
  · exact h1 hm

theorem countedT_insert_other (m : Int) (p k : ID) (obj : candidate) (F N : Nat)
    (T : List (ID × candidate)) (Q : List candidateOnBackoff) (Ps : List (List candidatePtr))
    (hne : k ≠ p) (h : countedT m p F N T Q Ps) :
    countedT m p F N (mapSet T k obj) Q Ps := by
  obtain ⟨c1, c2, c3, c4, c5, c6⟩ := h
  have hkeys : p ∈ mapKeys (mapSet T k obj) → p ∈ mapKeys T := by
    intro hp
    rcases (mem_mapKeys_mapSet _ _ _ _).mp hp with heq | hm
    · exact absurd heq.symm hne
    · exact hm
  refine ⟨fun hN => ?_, fun e he hp => ?_, c3, c4, fun hrec => ?_, c6⟩
  · obtain ⟨a1, a2, a3, a4⟩ := c1 hN
    exact ⟨fun hp => a1 (hkeys hp), a2, a3, a4⟩
  · rcases (mem_mapSet _ _ _ _).mp he with ⟨hm, _⟩ | heq
    · exact c2 e hm hp
    · rw [heq] at hp; exact absurd hp hne
  · rcases hrec with hp | hrest
    · exact c5 (Or.inl (hkeys hp))
    · exact c5 (Or.inr hrest)

theorem countedT_insert_same (m : Int) (p : ID) (obj : candidate) (F : Nat)
    (T : List (ID × candidate)) (Q : List candidateOnBackoff) (Ps : List (List candidatePtr))
    (hm : 1 ≤ m) (hobj : obj.numAttempts = 0) (h : countedT m p F 0 T Q Ps) :
    countedT m p F 1 (mapSet T p obj) Q Ps := by
  obtain ⟨c1, c2, c3, c4, c5, c6⟩ := h
  obtain ⟨a1, a2, a3, a4⟩ := c1 rfl
  subst a4
  refine ⟨fun hN => absurd hN (by decide), fun e he hp => ?_, c3, c4, fun _ => ?_, c6⟩
  · rcases (mem_mapSet _ _ _ _).mp he with ⟨hmem, hne⟩ | heq
    · exact absurd hp hne
    · rw [heq]; simpa using hobj
  · simpa using hm

theorem exclusiveT_start (p : ID) (T : List (ID × candidate)) (Q : List candidateOnBackoff)
    (Ps : List (List candidatePtr)) (order : List candidatePtr)
    (horder : ∀ c ∈ order, (c.obj.ai.ID, c.obj) ∈ T) (h : exclusiveT p T Q Ps) :
    exclusiveT p T Q (Ps ++ [order]) := by
  obtain ⟨h1, h2, h3⟩ := h
  refine ⟨h1, h2, fun pass hpass hp => ?_⟩
  rcases List.mem_append.mp hpass with hm | hm
  · exact h3 pass hm hp
  · rw [List.mem_singleton.mp hm] at hp
    obtain ⟨c, hc, hcp⟩ := (mem_passIDs _ _).mp hp
    apply h1
    exact List.mem_map.mpr ⟨(c.obj.ai.ID, c.obj), horder c hc, hcp⟩

theorem countedT_start (m : Int) (p : ID) (F N : Nat) (T : List (ID × candidate))
    (Q : List candidateOnBackoff) (Ps : List (List candidatePtr)) (order : List candidatePtr)
    (horder : ∀ c ∈ order, (c.obj.ai.ID, c.obj) ∈ T) (h : countedT m p F N T Q Ps) :
    countedT m p F N T Q (Ps ++ [order]) := by
  obtain ⟨c1, c2, c3, c4, c5, c6⟩ := h
  have hkey : p ∈ passIDs order → p ∈ mapKeys T := by
    intro hp
    obtain ⟨c, hc, hcp⟩ := (mem_passIDs _ _).mp hp
    exact List.mem_map.mpr ⟨(c.obj.ai.ID, c.obj), horder c hc, hcp⟩
  refine ⟨fun hN => ?_, c2, c3, fun pass hpass c hc hp => ?_, fun hrec => ?_, c6⟩
  · obtain ⟨a1, a2, a3, a4⟩ := c1 hN
    refine ⟨a1, a2, fun pass hpass => ?_, a4⟩
    rcases List.mem_append.mp hpass with hm | hm
    · exact a3 pass hm
    · rw [List.mem_singleton.mp hm]; exact fun hp => a1 (hkey hp)
  · rcases List.mem_append.mp hpass with hm | hm
    · exact c4 pass hm c hc hp
    · rw [List.mem_singleton.mp hm] at hc
      exact c2 _ (horder c hc) hp
  · rcases hrec with hp | hp | ⟨pass, hpass, hp⟩
    · exact c5 (Or.inl hp)
    · exact c5 (Or.inr (Or.inl hp))
    · rcases List.mem_append.mp hpass with hm | hm
      · exact c5 (Or.inr (Or.inr ⟨pass, hm, hp⟩))
      · rw [List.mem_singleton.mp hm] at hp
        exact c5 (Or.inl (hkey hp))

theorem exclusiveT_sweep (conf : config) (p : ID) (T : List (ID × candidate))
    (es Q1 : List candidateOnBackoff) (Ps : List (List candidatePtr))
    (h : exclusiveT p T (es ++ Q1) Ps) :
    exclusiveT p (es.foldl (reinsertPopped conf) T) Q1 Ps := by
  obtain ⟨h1, h2, h3⟩ := h
  have hsplit : backoffIDs (es ++ Q1) = backoffIDs es ++ backoffIDs Q1 := by
    simp [backoffIDs]
  rw [hsplit] at h1 h2 h3
  rw [List.count_append] at h2
  refine ⟨fun hp => ?_, by omega, fun pass hpass hp hq => ?_⟩
  · rcases mem_keys_fold_reinsert conf es T p hp with hk | hk
    · intro hq; exact h1 hk (List.mem_append_right _ hq)
    · intro hq
      have a1 := List.count_pos_iff.mpr hk
      have a2 := List.count_pos_iff.mpr hq
      omega
  · exact h3 pass hpass hp (List.mem_append_right _ hq)

theorem countedT_sweep (conf : config) (m : Int) (p : ID) (F N : Nat)
    (T : List (ID × candidate)) (es Q1 : List candidateOnBackoff)
    (Ps : List (List candidatePtr)) (h : countedT m p F N T (es ++ Q1) Ps) :
    countedT m p F N (es.foldl (reinsertPopped conf) T) Q1 Ps := by
  obtain ⟨c1, c2, c3, c4, c5, c6⟩ := h
  have hsplit : backoffIDs (es ++ Q1) = backoffIDs es ++ backoffIDs Q1 := by
    simp [backoffIDs]
  have hkeys : p ∈ mapKeys (es.foldl (reinsertPopped conf) T) →
      p ∈ mapKeys T ∨ p ∈ backoffIDs (es ++ Q1) := by
    intro hp
    rcases mem_keys_fold_reinsert conf es T p hp with hk | hk
    · exact Or.inl hk
    · right; rw [hsplit]; exact List.mem_append_left _ hk
  have hq : p ∈ backoffIDs Q1 → p ∈ backoffIDs (es ++ Q1) := by
    intro hp; rw [hsplit]; exact List.mem_append_right _ hp
  refine ⟨fun hN => ?_, fun e he hp => ?_, fun b hb hp => ?_, c4, fun hrec => ?_, c6⟩
  · obtain ⟨a1, a2, a3, a4⟩ := c1 hN
    refine ⟨fun hp => ?_, fun hp => a2 (hq hp), a3, a4⟩
    rcases hkeys hp with hk | hk
    · exact a1 hk
    · exact a2 hk
  · rcases mem_fold_reinsert conf es T e he with h1 | ⟨b, hb, heq⟩
    · exact c2 e h1 hp
    · rw [heq] at hp ⊢
      exact c3 b (List.mem_append_left _ hb) hp
  · exact c3 b (List.mem_append_right _ hb) hp
  · rcases hrec with hp | hp | hp
    · rcases hkeys hp with hk | hk
      · exact c5 (Or.inl hk)
      · exact c5 (Or.inr (Or.inl hk))
    · exact c5 (Or.inr (Or.inl (hq hp)))
    · exact c5 (Or.inr (Or.inr hp))

end Autorelay

namespace Autorelay

theorem exclusiveT_mono (p : ID) (T T1 : List (ID × candidate))
    (Q Q1 : List candidateOnBackoff) (Ps Ps1 : List (List candidatePtr))
    (hT : p ∈ mapKeys T1 → p ∈ mapKeys T)
    (hQ : (backoffIDs Q1).count p ≤ (backoffIDs Q).count p)
    (hP : ∀ pass ∈ Ps1, p ∈ passIDs pass → ∃ pass0 ∈ Ps, p ∈ passIDs pass0)
    (h : exclusiveT p T Q Ps) : exclusiveT p T1 Q1 Ps1 := by
  obtain ⟨h1, h2, h3⟩ := h
  have hq : p ∈ backoffIDs Q1 → p ∈ backoffIDs Q := by
    intro hp
    have := List.count_pos_iff.mpr hp
    exact List.count_pos_iff.mp (by omega)
  refine ⟨fun hp hq1 => h1 (hT hp) (hq hq1), by omega, fun pass hpass hp hq1 => ?_⟩
  obtain ⟨pass0, hp0, hpp⟩ := hP pass hpass hp
  exact h3 pass0 hp0 hpp (hq hq1)

theorem countedT_mono (m : Int) (p : ID) (F N : Nat) (T T1 : List (ID × candidate))
    (Q Q1 : List candidateOnBackoff) (Ps Ps1 : List (List candidatePtr))
    (hT : ∀ e ∈ T1, e.1 = p → e ∈ T)
    (hQ : ∀ b ∈ Q1, b.toCandidate.ai.ID = p → b ∈ Q)
    (hP : ∀ pass ∈ Ps1, ∀ c ∈ pass, c.obj.ai.ID = p → ∃ pass0 ∈ Ps, c ∈ pass0)
    (h : countedT m p F N T Q Ps) : countedT m p F N T1 Q1 Ps1 := by
  obtain ⟨c1, c2, c3, c4, c5, c6⟩ := h
  have hkT : p ∈ mapKeys T1 → p ∈ mapKeys T := by
    intro hp
    obtain ⟨e, he, hep⟩ := List.mem_map.mp hp
    exact List.mem_map.mpr ⟨e, hT e he hep, hep⟩
  have hkQ : p ∈ backoffIDs Q1 → p ∈ backoffIDs Q := by
    intro hp
    obtain ⟨b, hb, hbp⟩ := (mem_backoffIDs _ _).mp hp
    exact (mem_backoffIDs _ _).mpr ⟨b, hQ b hb hbp, hbp⟩
  have hkP : (∃ pass ∈ Ps1, p ∈ passIDs pass) → ∃ pass ∈ Ps, p ∈ passIDs pass := by
    rintro ⟨pass, hpass, hp⟩
    obtain ⟨c, hc, hcp⟩ := (mem_passIDs _ _).mp hp
    obtain ⟨pass0, hp0, hc0⟩ := hP pass hpass c hc hcp
    exact ⟨pass0, hp0, (mem_passIDs _ _).mpr ⟨c, hc0, hcp⟩⟩
  refine ⟨fun hN => ?_, fun e he hp => c2 e (hT e he hp) hp,
    fun b hb hp => c3 b (hQ b hb hp) hp, fun pass hpass c hc hp => ?_, fun hrec => ?_, c6⟩
  · obtain ⟨a1, a2, a3, a4⟩ := c1 hN
    refine ⟨fun hp => a1 (hkT hp), fun hp => a2 (hkQ hp), fun pass hpass hp => ?_, a4⟩
    obtain ⟨pass0, hp0, hpp⟩ := hkP ⟨pass, hpass, hp⟩
    exact a3 pass0 hp0 hpp
  · obtain ⟨pass0, hp0, hc0⟩ := hP pass hpass c hc hp
    exact c4 pass0 hp0 c hc0 hp
  · rcases hrec with hp | hp | hp
    · exact c5 (Or.inl (hkT hp))
    · exact c5 (Or.inr (Or.inl (hkQ hp)))
    · exact c5 (Or.inr (Or.inr (hkP hp)))

theorem countedT_gone (m : Int) (p : ID) (F N : Nat) (T1 : List (ID × candidate))
    (Q1 : List candidateOnBackoff) (Ps1 : List (List candidatePtr))
    (hN : N ≠ 0) (hF : (F : Int) ≤ m) (hT : p ∉ mapKeys T1) (hQ : p ∉ backoffIDs Q1)
    (hP : ∀ pass ∈ Ps1, p ∉ passIDs pass) : countedT m p F N T1 Q1 Ps1 := by
  refine ⟨fun h0 => absurd h0 hN, fun e he hp => ?_, fun b hb hp => ?_,
    fun pass hpass c hc hp => ?_, fun hrec => ?_, hF⟩
  · exact absurd (List.mem_map.mpr ⟨e, he, hp⟩) hT
  · exact absurd ((mem_backoffIDs _ _).mpr ⟨b, hb, hp⟩) hQ
  · exact absurd ((mem_passIDs _ _).mpr ⟨c, hc, hp⟩) (hP pass hpass)
  · rcases hrec with hp | hp | ⟨pass, hpass, hp⟩
    · exact absurd hp hT
    · exact absurd hp hQ
    · exact absurd hp (hP pass hpass)

theorem backoffIDs_append_singleton (Q : List candidateOnBackoff) (b : candidateOnBackoff) :
    backoffIDs (Q ++ [b]) = backoffIDs Q ++ [b.toCandidate.ai.ID] := by
  simp [backoffIDs]

theorem exclusiveT_transition (m : Int) (conf : config) (p : ID)
    (T T1 : List (ID × candidate)) (Q Q1 : List candidateOnBackoff)
    (Ps Ps1 : List (List candidatePtr)) (ins fails : Bool)
    (htr : transition m conf p T Q Ps T1 Q1 Ps1 ins fails)
    (hguard : ins = true → p ∉ backoffIDs Q)
    (h : exclusiveT p T Q Ps) : exclusiveT p T1 Q1 Ps1 := by
  cases htr with
  | frame e1 e2 e3 _ _ => rw [e1, e2, e3]; exact h
  | insert k obj hid hobj e1 e2 e3 ei _ =>
    rw [e1, e2, e3]
    refine exclusiveT_insert p k obj T Q Ps h (fun hk => hguard ?_)
    rw [ei]; simpa using hk
  | start order horder e1 e2 e3 _ _ =>
    rw [e1, e2, e3]; exact exclusiveT_start p T Q Ps order horder h
  | sweep es eq e1 e3 _ _ =>
    subst eq; rw [e1, e3]; exact exclusiveT_sweep conf p T es Q1 Ps h
  | reserved cand rest hmem hps e1 e2 _ _ =>
    rw [e1, e2]
    refine exclusiveT_mono p T T Q Q Ps Ps1 id (Nat.le_refl _) (fun pass hpass hp => ?_) h
    rw [hps pass hpass] at hp
    refine ⟨cand :: rest, hmem, ?_⟩
    simp only [passIDs, List.map_cons, List.mem_cons]
    exact Or.inr hp
  | dropped cand rest failed hmem hnd hps e1 e2 _ _ =>
    rw [e1, e2]
    refine exclusiveT_mono p T _ Q Q Ps Ps1 (fun hp => ((mem_mapKeys_mapDelete _ _ _).mp hp).1)
      (Nat.le_refl _) (fun pass hpass hp => ?_) h
    rw [hps pass hpass] at hp
    refine ⟨cand :: rest, hmem, ?_⟩
    simp only [passIDs, List.map_cons, List.mem_cons]
    exact Or.inr hp
  | backedOff cand rest t hmem hnd hps hlt e1 e2 _ _ =>
    rw [e1, e2]
    obtain ⟨h1, h2, h3⟩ := h
    have hpass : ∀ pass ∈ Ps1, p ∈ passIDs pass → p ∈ passIDs (cand :: rest)
        ∧ p ≠ cand.obj.ai.ID := by
      intro pass hp1 hp
      rw [hps pass hp1] at hp
      refine ⟨?_, fun heq => hnd (heq ▸ hp)⟩
      simp only [passIDs, List.map_cons, List.mem_cons]
      exact Or.inr hp
    rw [exclusiveT, backoffIDs_append_singleton]
    refine ⟨fun hp hq => ?_, ?_, fun pass hp1 hp hq => ?_⟩
    · obtain ⟨hk, hne⟩ := (mem_mapKeys_mapDelete _ _ _).mp hp
      rcases List.mem_append.mp hq with hq1 | hq1
      · exact h1 hk hq1
      · exact hne (List.mem_singleton.mp hq1)
    · rw [List.count_append]
      by_cases hid : cand.obj.ai.ID = p
      · have hin : p ∈ passIDs (cand :: rest) := by
          simp only [passIDs, List.map_cons, List.mem_cons]
          exact Or.inl hid.symm
        have hz : (backoffIDs Q).count p = 0 := List.count_eq_zero.mpr (h3 _ hmem hin)
        rw [hz]
        simp [hid]
      · have : List.count p [cand.obj.ai.ID] = 0 := by
          simp [List.count_singleton, hid]
        simp only [this]; omega
    · obtain ⟨hin, hne⟩ := hpass pass hp1 hp
      rcases List.mem_append.mp hq with hq1 | hq1
      · exact h3 _ hmem hin hq1
      · exact hne (List.mem_singleton.mp hq1)

theorem countedT_transition (m : Int) (conf : config) (p : ID) (F N : Nat)
    (T T1 : List (ID × candidate)) (Q Q1 : List candidateOnBackoff)
    (Ps Ps1 : List (List candidatePtr)) (ins fails : Bool) (hm : 1 ≤ m)
    (htr : transition m conf p T Q Ps T1 Q1 Ps1 ins fails)
    (hx : exclusiveT p T Q Ps) (hN : N + (if ins then 1 else 0) ≤ 1)
    (h : countedT m p F N T Q Ps) :
    countedT m p (F + (if fails then 1 else 0)) (N + (if ins then 1 else 0)) T1 Q1 Ps1 := by
  cases htr with
  | frame e1 e2 e3 ei ef => subst ei ef; rw [e1, e2, e3]; simpa using h
  | insert k obj hid hobj e1 e2 e3 ei ef =>
    subst ef; rw [e1, e2, e3]
    by_cases hk : k = p
    · subst hk
      have hi : ins = true := by rw [ei]; simp
      subst hi
      have hN0 : N = 0 := by simpa using hN
      subst hN0
      simpa using countedT_insert_same m k obj F T Q Ps hm hobj h
    · have hi : ins = false := by rw [ei]; simpa using hk
      subst hi
      simpa using countedT_insert_other m p k obj F N T Q Ps hk h
  | start order horder e1 e2 e3 ei ef =>
    subst ei ef; rw [e1, e2, e3]; simpa using countedT_start m p F N T Q Ps order horder h
  | sweep es eq e1 e3 ei ef =>
    subst eq ei ef; rw [e1, e3]; simpa using countedT_sweep conf m p F N T es Q1 Ps h
  | reserved cand rest hmem hps e1 e2 ei ef =>
    subst ei ef; rw [e1, e2]
    have := countedT_mono m p F N T T Q Q Ps Ps1 (fun e he _ => he) (fun b hb _ => hb)
      (fun pass hpass c hc _ => ⟨cand :: rest, hmem, by
        rw [hps pass hpass] at hc; exact List.mem_cons_of_mem _ hc⟩) h
    simpa using this
  | dropped cand rest failed hmem hnd hps e1 e2 ei ef =>
    subst ei; rw [e1, e2]
    by_cases hfp : failed = true ∧ cand.obj.ai.ID = p
    · obtain ⟨hf, hid⟩ := hfp
      have hfl : fails = true := by rw [ef]; simp [hf, hid]
      subst hfl
      obtain ⟨c1, c2, c3, c4, c5, c6⟩ := h
      have hin : p ∈ passIDs (cand :: rest) := by
        simp only [passIDs, List.map_cons, List.mem_cons]
        exact Or.inl hid.symm
      have hlt := c5 (Or.inr (Or.inr ⟨cand :: rest, hmem, hin⟩))
      have hN1 : N ≠ 0 := fun h0 => (c1 h0).2.2.1 _ hmem hin
      have := countedT_gone m p (F + 1) N (mapDelete T cand.obj.ai.ID) Q Ps1 hN1
        (by push_cast; omega)
        (fun hp => ((mem_mapKeys_mapDelete _ _ _).mp hp).2 hid.symm)
        (hx.2.2 _ hmem hin)
        (fun pass hpass hp => by
          rw [hps pass hpass] at hp; exact hnd (hid ▸ hp))
      simpa using this
    · have hfl : fails = false := by
        rw [ef]
        cases failed with
        | false => rfl
        | true =>
          have : ¬ cand.obj.ai.ID = p := fun hid => hfp ⟨rfl, hid⟩
          simp [this]
      subst hfl
      have := countedT_mono m p F N T (mapDelete T cand.obj.ai.ID) Q Q Ps Ps1
        (fun e he _ => ((mem_mapDelete _ _ _).mp he).1) (fun b hb _ => hb)
        (fun pass hpass c hc _ => ⟨cand :: rest, hmem, by
          rw [hps pass hpass] at hc; exact List.mem_cons_of_mem _ hc⟩) h
      simpa using this
  | backedOff cand rest t hmem hnd hps hlt e1 e2 ei ef =>
    subst ei; rw [e1, e2]
    by_cases hid : cand.obj.ai.ID = p
    · have hfl : fails = true := by rw [ef]; simp [hid]
      subst hfl
      obtain ⟨c1, c2, c3, c4, c5, c6⟩ := h
      have hin : p ∈ passIDs (cand :: rest) := by
        simp only [passIDs, List.map_cons, List.mem_cons]
        exact Or.inl hid.symm
      have hcount : cand.obj.numAttempts = (F : Int) :=
        c4 _ hmem cand (List.mem_cons_self _ _) hid
      have hN1 : N ≠ 0 := fun h0 => (c1 h0).2.2.1 _ hmem hin
      have hq : p ∉ backoffIDs Q := hx.2.2 _ hmem hin
      have hrest : ∀ pass ∈ Ps1, p ∉ passIDs pass := by
        intro pass hpass hp
        rw [hps pass hpass] at hp; exact hnd (hid ▸ hp)
      have hkeys : p ∉ mapKeys (mapDelete T cand.obj.ai.ID) :=
        fun hp => ((mem_mapKeys_mapDelete _ _ _).mp hp).2 hid.symm
      have hF1 : ((F + 1 : Nat) : Int) < m := by push_cast; omega
      simp only [if_true, Bool.false_eq_true, if_false, Nat.add_zero]
      refine ⟨fun h0 => absurd h0 hN1, fun e he hp => ?_, fun b hb hp => ?_,
        fun pass hpass c hc hp => ?_, fun _ => hF1, by omega⟩
      · exact absurd (List.mem_map.mpr ⟨e, he, hp⟩) hkeys
      · rcases List.mem_append.mp hb with hb1 | hb1
        · exact absurd ((mem_backoffIDs _ _).mpr ⟨b, hb1, hp⟩) hq
        · rw [List.mem_singleton.mp hb1]
          show cand.obj.numAttempts + 1 = ((F + 1 : Nat) : Int)
          push_cast; omega
      · exact absurd ((mem_passIDs _ _).mpr ⟨c, hc, hp⟩) (hrest pass hpass)
    · have hfl : fails = false := by rw [ef]; simpa using hid
      subst hfl
      have := countedT_mono m p F N T (mapDelete T cand.obj.ai.ID) Q
        (Q ++ [{ toCandidate := { cand.obj with numAttempts := cand.obj.numAttempts + 1 },
                 nextConnAttempt := t }]) Ps Ps1
        (fun e he _ => ((mem_mapDelete _ _ _).mp he).1)
        (fun b hb hp => by
          rcases List.mem_append.mp hb with hb1 | hb1
          · exact hb1
          · rw [List.mem_singleton.mp hb1] at hp; exact absurd hp hid)
        (fun pass hpass c hc _ => ⟨cand :: rest, hmem, by
          rw [hps pass hpass] at hc; exact List.mem_cons_of_mem _ hc⟩) h
      simpa using this

end Autorelay

namespace Autorelay

/-! ## Every step is one of the transitions -/

theorem candidateObjs_congr (rf rf1 : relayFinder) (h : rf1.candidates = rf.candidates) :
    candidateObjs rf1 = candidateObjs rf := by
  unfold candidateObjs; rw [h]

theorem mem_continuePass_serial (rf : relayFinder) (rest pass : List candidatePtr)
    (h : pass ∈ (continuePass rf 0 rest).passes) (hone : rf.passes.length ≤ 1) :
    pass = rest := by
  unfold continuePass at h
  match hp : rf.passes, hone with
  | [], _ =>
    split at h
    · simp [hp] at h
    · simp [hp] at h
  | [x], _ =>
    split at h
    · simp [hp] at h
    · simpa [hp] using h

theorem map_bump_of_not_mem (a : Nat) (rest : List candidatePtr)
    (h : a ∉ rest.map (fun c => c.addr)) : rest.map (bumpAttempts a) = rest := by
  induction rest with
  | nil => rfl
  | cons c rest ih =>
    simp only [List.map_cons, List.mem_cons, not_or] at h
    rw [List.map_cons, ih h.2]
    have : bumpAttempts a c = c := by
      unfold bumpAttempts
      rw [if_neg (fun heq => h.1 heq.symm)]
    rw [this]

theorem order_in_table (rf : relayFinder) (order : List candidatePtr)
    (ht : tableInv rf.candidates rf.allocated)
    (hperm : order.Perm (rf.candidates.map Prod.snd)) :
    ∀ c ∈ order, (c.obj.ai.ID, c.obj) ∈ candidateObjs rf := by
  intro c hc
  obtain ⟨e, he, hec⟩ := List.mem_map.mp (hperm.mem_iff.mp hc)
  have hid := ht.1 e he
  unfold candidateObjs
  refine List.mem_map.mpr ⟨e, he, ?_⟩
  rw [← hec, hid]

theorem step_transition (conf : config) (p : ID) (a : action) (rf rf1 : relayFinder)
    (hw : wellFormed rf) (hone : rf.passes.length ≤ 1) (hstep0 : step conf a rf = some rf1) :
    transition conf.maxAttempts conf p (candidateObjs rf) rf.candidatesOnBackoff rf.passes
      (candidateObjs rf1) rf1.candidatesOnBackoff rf1.passes
      (insertsPeer conf p a rf) (failsPeer p a rf) := by
  have hstep := step_act conf a rf rf1 hstep0
  obtain ⟨ht, hp⟩ := hw
  cases a with
  | found pi =>
    have h1 : rf1 = findNodes conf pi rf := (Option.some.inj hstep).symm
    obtain ⟨_, f2, f3, f4⟩ := findNodes_frame conf pi rf
    rw [h1]
    exact transition.frame (candidateObjs_congr _ _ f3) f4 f2 rfl rfl
  | addrs hst now addrs =>
    have h1 : rf1 = (relayAddrs hst now addrs rf).1 := (Option.some.inj hstep).symm
    obtain ⟨_, f2, f3, f4⟩ := relayAddrs_frame hst now addrs rf
    rw [h1]
    exact transition.frame (candidateObjs_congr _ _ f3) f4 f2 rfl rfl
  | startPass now n order =>
    obtain ⟨k, _, hh⟩ := act_startPass conf now n order rf rf1 hstep
    rcases handleNewCandidate_cases conf k now n order _ rf1 hh with h2 | ⟨_, hperm, h2⟩
    · rw [h2]; exact transition.frame rfl rfl rfl rfl rfl
    · rw [h2]
      exact transition.start order
        (order_in_table { rf with deciding := none } order ht hperm) rfl rfl rfl rfl rfl
  | probed j ok =>
    simp only [act] at hstep
    cases hg : rf.probing.get? j with
    | none => rw [hg] at hstep; exact absurd hstep (by simp)
    | some pr =>
      obtain ⟨pi, inUse⟩ := pr
      rw [hg] at hstep
      have h1 : rf1 = handleNewNode conf pi inUse ok
          { rf with probing := rf.probing.eraseIdx j } := (Option.some.inj hstep).symm
      rw [h1]
      have hins : insertsPeer conf p (action.probed j ok) rf
          = (decide (pi.ID = p) && !inUse && ok
              && !decide ((rf.candidates.length : Int) > conf.maxCandidates)) := by
        simp only [insertsPeer, hg]
      rw [hins]
      unfold handleNewNode notifyNewCandidate
      by_cases hu : inUse = true
      · rw [if_pos hu]
        have hu1 : inUse = true := hu
        exact transition.frame rfl rfl rfl (by simp [hu1]) rfl
      · rw [if_neg hu]
        have hu1 : inUse = false := by simpa using hu
        by_cases hok : (!ok) = true
        · rw [if_pos hok]
          have : ok = false := by simpa using hok
          exact transition.frame rfl rfl rfl (by simp [this]) rfl
        · rw [if_neg hok]
          have hok1 : ok = true := by simpa using hok
          by_cases hfull : (rf.candidates.length : Int) > conf.maxCandidates
          · rw [if_pos hfull]
            exact transition.frame rfl rfl rfl (by simp [hfull]) rfl
          · rw [if_neg hfull]
            refine transition.insert pi.ID { added := 0, ai := pi, numAttempts := 0 } rfl rfl
              ?_ rfl rfl (by simp [hu1, hok1, hfull]) rfl
            exact map_mapSet (fun c : candidatePtr => c.obj) rf.candidates pi.ID
              { addr := rf.allocated, obj := { added := 0, ai := pi, numAttempts := 0 } }
  | supervisor ev =>
    obtain ⟨r, hs, _, e2, e3, e4, _, _⟩ := background_inv conf ev rf rf1
      (act_supervisor conf ev rf rf1 hstep).2
    rw [candidateObjs_congr r.1 rf1 e3, e4, e2]
    have hfalse : failsPeer p (action.supervisor ev) rf = false := rfl
    have hnoins : insertsPeer conf p (action.supervisor ev) rf = false := rfl
    rw [hfalse, hnoins]
    cases ev with
    | connectednessChanged q c =>
      simp only [selectCase] at hs
      split at hs
      · rw [← Option.some.inj hs]; exact transition.frame rfl rfl rfl rfl rfl
      · split at hs
        · rw [← Option.some.inj hs]; exact transition.frame rfl rfl rfl rfl rfl
        · rw [← Option.some.inj hs]; exact transition.frame rfl rfl rfl rfl rfl
    | candidateFound =>
      simp only [selectCase] at hs
      split at hs
      · rw [← Option.some.inj hs]; exact transition.frame rfl rfl rfl rfl rfl
      · exact absurd hs (by simp)
    | bootDelayTimer =>
      simp only [selectCase] at hs
      rw [← Option.some.inj hs]; exact transition.frame rfl rfl rfl rfl rfl
    | relayUpdated =>
      simp only [selectCase] at hs
      split at hs
      · rw [← Option.some.inj hs]; exact transition.frame rfl rfl rfl rfl rfl
      · exact absurd hs (by simp)
    | refreshTicker now reserve =>
      simp only [selectCase] at hs
      rw [← Option.some.inj hs]
      obtain ⟨_, _, _, i4, _, i6, i7⟩ := refreshReservations_spec reserve now rf
      exact transition.frame (candidateObjs_congr _ _ i6) i7 i4 rfl rfl
    | backoffTicker now =>
      simp only [selectCase] at hs
      rw [← Option.some.inj hs]
      obtain ⟨c1, c2, _, c4, _⟩ := checkLoop_spec conf now rf.candidatesOnBackoff rf rfl
      refine transition.sweep
        (rf.candidatesOnBackoff.takeWhile (fun e => !decide (e.nextConnAttempt > now)))
        ?_ c2 c4 rfl rfl
      show rf.candidatesOnBackoff = _ ++ (checkLoop conf now rf.candidatesOnBackoff rf).candidatesOnBackoff
      rw [c1]
      exact (List.takeWhile_append_dropWhile _ _).symm
  | pass i out =>
    have hstep : passIteration conf i out rf = some rf1 := hstep
    obtain ⟨cand, rest, hget, hcases⟩ := passIteration_inv conf i out rf rf1 hstep
    obtain ⟨hi, hpasses⟩ := singleton_of_get? rf.passes i (cand :: rest) hone hget
    subst hi
    have hmem : cand :: rest ∈ rf.passes := List.get?_mem hget
    have hinv : passInv (cand :: rest) := hp _ hmem
    have hnd : cand.obj.ai.ID ∉ passIDs rest := by
      have := hinv.1
      simp only [List.map_cons, List.nodup_cons] at this
      exact this.1
    have hbump : rest.map (bumpAttempts cand.addr) = rest := by
      apply map_bump_of_not_mem
      have := hinv.2
      simp only [List.map_cons, List.nodup_cons] at this
      exact this.1
    have hnoins : insertsPeer conf p (action.pass 0 out) rf = false := rfl
    rw [hnoins]
    have hlenb : (rf.passes.map (List.map (bumpAttempts cand.addr))).length ≤ 1 := by
      simpa using hone
    rcases hcases with ⟨ho, h1⟩ | ⟨now, r, ho, _, h1⟩ | ⟨now, r, rf2, ho, hlt, hm, h1⟩
        | ⟨rsvp, ho, _, h1⟩ | ⟨rsvp, ho, hd, h1⟩
    · subst ho
      obtain ⟨_, f2, f3, _⟩ := continuePass_frame
        { rf with candidates := mapDelete rf.candidates cand.obj.ai.ID } 0 rest
      rw [h1, candidateObjs_congr _ _ f2, f3]
      refine transition.dropped cand rest false hmem hnd
        (fun pass hpass => mem_continuePass_serial _ rest pass hpass hone)
        (map_mapDelete (fun c : candidatePtr => c.obj) rf.candidates cand.obj.ai.ID)
        rfl rfl ?_
      simp [failsPeer]
    · subst ho
      obtain ⟨_, f2, f3, _⟩ := continuePass_frame
        { rf with
          passes := rf.passes.map (List.map (bumpAttempts cand.addr))
          candidates := mapDelete rf.candidates cand.obj.ai.ID }
        0 (rest.map (bumpAttempts cand.addr))
      rw [h1, candidateObjs_congr _ _ f2, f3]
      refine transition.dropped cand rest true hmem hnd
        (fun pass hpass => ?_)
        (map_mapDelete (fun c : candidatePtr => c.obj) rf.candidates cand.obj.ai.ID)
        rfl rfl ?_
      · have := mem_continuePass_serial _ _ pass hpass hlenb
        rw [this, hbump]
      · simp only [failsPeer, hget, Bool.true_and]
    · subst ho
      obtain ⟨_, f2, f3, _⟩ := continuePass_frame rf2 0 (rest.map (bumpAttempts cand.addr))
      rw [h1, candidateObjs_congr _ _ f2, f3]
      rcases moveCandidateToBackoff_cases _ _ _ _ _ _ hm with h2 | ⟨_, t, h2⟩
      · rw [h2]
        refine transition.dropped cand rest true hmem hnd
          (fun pass hpass => ?_)
          (map_mapDelete (fun c : candidatePtr => c.obj) rf.candidates cand.obj.ai.ID)
          rfl rfl ?_
        · have := mem_continuePass_serial _ _ pass hpass hlenb
          rw [this, hbump]
        · simp only [failsPeer, hget, Bool.true_and]
      · rw [h2]
        refine transition.backedOff cand rest t hmem hnd
          (fun pass hpass => ?_) hlt
          (map_mapDelete (fun c : candidatePtr => c.obj) rf.candidates cand.obj.ai.ID)
          rfl rfl ?_
        · have := mem_continuePass_serial _ _ pass hpass hlenb
          rw [this, hbump]
        · simp only [failsPeer, hget, Bool.true_and]
    · subst ho
      rw [h1]
      refine transition.reserved cand rest hmem (fun pass hpass => ?_) rfl rfl rfl ?_
      · exfalso
        simp [breakPass, hpasses] at hpass
      · simp [failsPeer]
    · subst ho
      obtain ⟨_, f2, f3, _⟩ := continuePass_frame
        { rf with
          relays := mapSet rf.relays cand.obj.ai.ID rsvp
          protectedPeers := Protect rf.protectedPeers cand.obj.ai.ID
          relayUpdated := true } 0 rest
      rw [h1, candidateObjs_congr _ _ f2, f3]
      refine transition.reserved cand rest hmem
        (fun pass hpass => mem_continuePass_serial _ rest pass hpass hone) rfl rfl rfl ?_
      simp [failsPeer]

end Autorelay

namespace Autorelay

/-! ## Runs without overlapping passes -/

theorem wellFormed_new (boot : Int) : wellFormed (newRelayFinder boot) := by
  refine ⟨⟨?_, ?_, ?_, ?_⟩, ?_⟩ <;> simp [newRelayFinder, mapKeys]

theorem exclusiveT_new (p : ID) (boot : Int) :
    exclusiveT p (candidateObjs (newRelayFinder boot))
      (newRelayFinder boot).candidatesOnBackoff (newRelayFinder boot).passes := by
  refine ⟨?_, ?_, ?_⟩ <;> simp [newRelayFinder, candidateObjs, mapKeys, backoffIDs]

theorem countedT_new (m : Int) (hm : 1 ≤ m) (p : ID) (boot : Int) :
    countedT m p 0 0 (candidateObjs (newRelayFinder boot))
      (newRelayFinder boot).candidatesOnBackoff (newRelayFinder boot).passes := by
  refine ⟨?_, ?_, ?_, ?_, ?_, ?_⟩ <;>
    simp [newRelayFinder, candidateObjs, mapKeys, backoffIDs]
  omega

theorem runFresh_exclusive (conf : config) (p : ID) :
    ∀ (as : List action) (rf rf1 : relayFinder), runFresh conf p as rf = some rf1 →
      wellFormed rf → rf.passes.length ≤ 1 →
      exclusiveT p (candidateObjs rf) rf.candidatesOnBackoff rf.passes →
      exclusiveT p (candidateObjs rf1) rf1.candidatesOnBackoff rf1.passes := by
  intro as
  induction as with
  | nil =>
    intro rf rf1 h _ _ hx
    have : rf = rf1 := Option.some.inj h
    subst this; exact hx
  | cons a as ih =>
    intro rf rf1 h hw hone hx
    simp only [runFresh] at h
    by_cases hg : (insertsPeer conf p a rf
        && (backoffIDs rf.candidatesOnBackoff).contains p) = true
    · rw [if_pos hg] at h; exact absurd h (by simp)
    · rw [if_neg hg] at h
      cases hs : stepSerial conf a rf with
      | none => rw [hs] at h; exact absurd h (by simp)
      | some rf2 =>
        rw [hs] at h
        obtain ⟨hstep, hone2⟩ := stepSerial_inv conf a rf rf2 hs
        have htr := step_transition conf p a rf rf2 hw hone hstep
        have hguard : insertsPeer conf p a rf = true →
            p ∉ backoffIDs rf.candidatesOnBackoff := by
          intro hi hmem
          apply hg
          simp [hi, hmem]
        exact ih rf2 rf1 h (step_wellFormed conf a rf rf2 hstep hw) hone2
          (exclusiveT_transition conf.maxAttempts conf p _ _ _ _ _ _ _ _ htr hguard hx)

theorem runSerial_counted (conf : config) (p : ID) (hm : 1 ≤ conf.maxAttempts) :
    ∀ (as : List action) (rf rf1 : relayFinder) (F N : Nat),
      runSerial conf as rf = some rf1 →
      wellFormed rf → rf.passes.length ≤ 1 →
      exclusiveT p (candidateObjs rf) rf.candidatesOnBackoff rf.passes →
      countedT conf.maxAttempts p F N (candidateObjs rf) rf.candidatesOnBackoff rf.passes →
      N + countSteps (insertsPeer conf p) conf as rf ≤ 1 →
      ((F + countSteps (failsPeer p) conf as rf : Nat) : Int) ≤ conf.maxAttempts := by
  intro as
  induction as with
  | nil =>
    intro rf rf1 F N _ _ _ _ hc _
    simpa [countSteps] using hc.2.2.2.2.2
  | cons a as ih =>
    intro rf rf1 F N h hw hone hx hc hN
    simp only [runSerial] at h
    cases hs : stepSerial conf a rf with
    | none => rw [hs] at h; exact absurd h (by simp)
    | some rf2 =>
      rw [hs] at h
      simp only [Option.some_bind] at h
      simp only [countSteps, hs] at hN ⊢
      obtain ⟨hstep, hone2⟩ := stepSerial_inv conf a rf rf2 hs
      have htr := step_transition conf p a rf rf2 hw hone hstep
      have hguard : insertsPeer conf p a rf = true →
          p ∉ backoffIDs rf.candidatesOnBackoff := by
        intro hi
        rw [hi] at hN
        have hN0 : N = 0 := by
          simp only [if_true] at hN; omega
        exact (hc.1 hN0).2.1
      have hx2 := exclusiveT_transition conf.maxAttempts conf p _ _ _ _ _ _ _ _ htr hguard hx
      have hc2 := countedT_transition conf.maxAttempts conf p F N _ _ _ _ _ _ _ _ hm htr hx
        (by omega) hc
      have := ih rf2 rf1 (F + (if failsPeer p a rf = true then 1 else 0))
        (N + (if insertsPeer conf p a rf = true then 1 else 0)) h
        (step_wellFormed conf a rf rf2 hstep hw) hone2 hx2 hc2 (by omega)
      rw [Nat.add_assoc] at this
      exact this

theorem reserveFailed_effect (conf : config) (i : Nat) (now : Int) (r : Fin 8)
    (rf : relayFinder) (cand : candidatePtr) (rest : List candidatePtr)
    (hget : rf.passes.get? i = some (cand :: rest)) (hk : 0 ≤ cand.obj.numAttempts) :
    ∃ rf1, passIteration conf i (attempt.reserveFailed now r) rf = some rf1
      ∧ cand.obj.ai.ID ∉ mapKeys rf1.candidates
      ∧ (conf.maxAttempts ≤ cand.obj.numAttempts + 1 →
          rf1.candidatesOnBackoff = rf.candidatesOnBackoff)
      ∧ (cand.obj.numAttempts + 1 < conf.maxAttempts →
          conf.maxCandidates ≤ (rf.candidatesOnBackoff.length : Int) →
          rf1.candidatesOnBackoff = rf.candidatesOnBackoff)
      ∧ (cand.obj.numAttempts + 1 < conf.maxAttempts →
          (rf.candidatesOnBackoff.length : Int) < conf.maxCandidates →
          ∃ t : Int, rf1.candidatesOnBackoff = rf.candidatesOnBackoff ++
            [{ toCandidate := { cand.obj with numAttempts := cand.obj.numAttempts + 1 },
               nextConnAttempt := t }]) := by
  have hex : ∃ rf1, passIteration conf i (attempt.reserveFailed now r) rf = some rf1 := by
    unfold passIteration
    rw [hget]
    by_cases hmax : cand.obj.numAttempts + 1 ≥ conf.maxAttempts
    · simp only [hmax, if_true]; exact ⟨_, rfl⟩
    · simp only [hmax, if_false]
      obtain ⟨rf2, h2⟩ := moveCandidateToBackoff_isSome conf now r
        { cand.obj with numAttempts := cand.obj.numAttempts + 1 }
        { rf with
          passes := rf.passes.map (List.map (bumpAttempts cand.addr))
          candidates := mapDelete rf.candidates cand.obj.ai.ID }
        (by show 1 ≤ cand.obj.numAttempts + 1; omega)
      rw [h2]; exact ⟨_, rfl⟩
  obtain ⟨rf1, h1⟩ := hex
  refine ⟨rf1, h1, ?_⟩
  obtain ⟨cand0, rest0, hget0, hcases⟩ := passIteration_inv conf i _ rf rf1 h1
  rw [hget] at hget0
  have hc : cand = cand0 := (List.cons.inj (Option.some.inj hget0)).1
  subst hc
  have hdel : cand.obj.ai.ID ∉ mapKeys (mapDelete rf.candidates cand.obj.ai.ID) :=
    fun hp => ((mem_mapKeys_mapDelete _ _ _).mp hp).2 rfl
  rcases hcases with ⟨ho, _⟩ | ⟨_, _, _, hge, h2⟩ | ⟨now1, r1, rf2, _, hlt, hm, h2⟩
      | ⟨_, ho, _⟩ | ⟨_, ho, _⟩
  · exact absurd ho (by simp)
  · obtain ⟨_, f2, f3, _⟩ := continuePass_frame
      { rf with
        passes := rf.passes.map (List.map (bumpAttempts cand.addr))
        candidates := mapDelete rf.candidates cand.obj.ai.ID }
      i (rest0.map (bumpAttempts cand.addr))
    rw [h2, f2, f3]
    exact ⟨hdel, fun _ => rfl, fun hlt => absurd hge (by omega), fun hlt => absurd hge (by omega)⟩
  · obtain ⟨_, f2, f3, _⟩ := continuePass_frame rf2 i (rest0.map (bumpAttempts cand.addr))
    rw [h2, f2, f3]
    rcases moveCandidateToBackoff_cases _ _ _ _ _ _ hm with h3 | ⟨hroom, t, h3⟩
    · rw [h3]
      refine ⟨hdel, fun _ => rfl, fun _ _ => rfl, fun _ hroom => ?_⟩
      exfalso
      unfold moveCandidateToBackoff at hm
      have hnf : ¬ ((rf.candidatesOnBackoff.length : Int) ≥ conf.maxCandidates) := by omega
      have hns : ¬ (cand.obj.numAttempts + 1 - 1 < 0) := by omega
      simp only [hnf, hns, if_false] at hm
      rw [h3] at hm
      have := congrArg (fun s : Option relayFinder =>
        s.map (fun x => x.candidatesOnBackoff.length)) hm
      simp at this
    · rw [h3]
      have hroom1 : (rf.candidatesOnBackoff.length : Int) < conf.maxCandidates := hroom
      exact ⟨hdel, fun hge => absurd hlt (by omega), fun _ hfull => absurd hroom1 (by omega),
        fun _ _ => ⟨t, rfl⟩⟩
  · exact absurd ho (by simp)
  · exact absurd ho (by simp)

/-! ## Mutual exclusion of the tables -/

/-- C1 (counterexample): after `reserveRun` peer 1 is a key of the candidate table and of the
reservation table (a successful `Reserve` does not remove the candidate); after `reprobeRun`
peer 1 is in the candidate table and in the backoff queue (`handleNewNode` does not look at
the backoff queue). -/
theorem tables_not_exclusive :
    run sampleConf reserveRun (newRelayFinder 0) = some reservedState
    ∧ 1 ∈ mapKeys reservedState.candidates ∧ 1 ∈ mapKeys reservedState.relays
    ∧ (run sampleConf reprobeRun (newRelayFinder 0)).map
        (fun s => (mapKeys s.candidates, backoffIDs s.candidatesOnBackoff))
      = some ([1], [1]) := by
  decide

/-- C1 (amended): in every state reached by a run in which at most one reservation pass is in
flight at a time and `handleNewNode` does not insert the peer `p` while `p` is in the backoff
queue, `p` is not simultaneously a key of the candidate table and in the backoff queue, and it
is in the backoff queue at most once. The candidate table and the reservation table are not
exclusive: `handleNewNode` leaves the state unchanged for a peer that was in the reservation
table when the probe started, but nothing removes a candidate whose `Reserve` succeeded. -/
theorem candidate_backoff_exclusive (conf : config) (p : ID) (boot : Int)
    (as : List action) (rf : relayFinder)
    (h : runFresh conf p as (newRelayFinder boot) = some rf) :
    ¬ (p ∈ mapKeys rf.candidates ∧ p ∈ backoffIDs rf.candidatesOnBackoff)
    ∧ (backoffIDs rf.candidatesOnBackoff).count p ≤ 1
    ∧ (∀ (pi : AddrInfo) (ok : Bool) (rf0 : relayFinder),
        handleNewNode conf pi true ok rf0 = rf0) := by
  obtain ⟨h1, h2, _⟩ := runFresh_exclusive conf p as (newRelayFinder boot) rf h
    (wellFormed_new boot) (by simp [newRelayFinder]) (exclusiveT_new p boot)
  refine ⟨fun hboth => ?_, h2, fun pi ok rf0 => ?_⟩
  · rw [mapKeys_candidateObjs] at h1
    exact h1 hboth.1 hboth.2
  · unfold handleNewNode
    rw [if_pos rfl]

/-- C1 (witness): the run `giveUpRun` with `sampleConf`, after which peer 1 waits in the
backoff queue and is no longer a candidate. -/
theorem candidate_backoff_exclusive_witness :
    runFresh sampleConf 1 (giveUpRun) (newRelayFinder 0) = some backoffState
    ∧ ¬ (1 ∈ mapKeys backoffState.candidates
          ∧ 1 ∈ backoffIDs backoffState.candidatesOnBackoff)
    ∧ (backoffIDs backoffState.candidatesOnBackoff).count 1 ≤ 1 :=
  ⟨by decide,
   (candidate_backoff_exclusive sampleConf 1 0 (giveUpRun) backoffState (by decide)).1,
   (candidate_backoff_exclusive sampleConf 1 0 (giveUpRun) backoffState (by decide)).2.1⟩

/-! ## Bounded retries -/

/-- C5 (counterexample): with `maxAttempts = 1`, peer 1 is given up after its first failed
`Reserve` and is in neither the candidate table nor the backoff queue; discovery then delivers
it again, `handleNewNode` inserts it afresh and the next pass tries it again: `Reserve` fails
twice for peer 1. -/
theorem retried_after_giving_up :
    (runSerial oneAttemptConf giveUpRun (newRelayFinder 0)).map
        (fun s => (mapKeys s.candidates, backoffIDs s.candidatesOnBackoff)) = some ([], [])
    ∧ (runSerial oneAttemptConf rediscoverRun (newRelayFinder 0)).isSome = true
    ∧ countSteps (failsPeer 1) oneAttemptConf rediscoverRun (newRelayFinder 0) = 2
    ∧ oneAttemptConf.maxAttempts = 1 := by
  decide

/-- C5 (amended): for `maxAttempts ≥ 1`, in a run in which at most one reservation pass is in
flight at a time and `handleNewNode` inserts the peer `p` at most once, `Reserve` fails for
`p` at most `maxAttempts` times. Each failed `Reserve` removes the peer from the candidate
table and counts one more attempt; when the count reaches `maxAttempts` nothing is appended to
the backoff queue, and below `maxAttempts` the candidate is appended to the backoff queue with
the incremented count unless the queue already holds `maxCandidates` entries; every candidate
in the table after a sweep was there before or is a queue entry with its fields unchanged.
(There is no permanent exclusion: a peer that discovery delivers again is inserted afresh with
the count 0.) -/
theorem bounded_retries (conf : config) (hmax : 1 ≤ conf.maxAttempts) (p : ID) (boot : Int)
    (as : List action) (rf : relayFinder)
    (hrun : runSerial conf as (newRelayFinder boot) = some rf)
    (hins : countSteps (insertsPeer conf p) conf as (newRelayFinder boot) ≤ 1) :
    (countSteps (failsPeer p) conf as (newRelayFinder boot) : Int) ≤ conf.maxAttempts
    ∧ (∀ (i : Nat) (now : Int) (r : Fin 8) (rf0 : relayFinder) (cand : candidatePtr)
        (rest : List candidatePtr),
        rf0.passes.get? i = some (cand :: rest) → 0 ≤ cand.obj.numAttempts →
        ∃ rf1, passIteration conf i (attempt.reserveFailed now r) rf0 = some rf1
          ∧ cand.obj.ai.ID ∉ mapKeys rf1.candidates
          ∧ (conf.maxAttempts ≤ cand.obj.numAttempts + 1 →
              rf1.candidatesOnBackoff = rf0.candidatesOnBackoff)
          ∧ (cand.obj.numAttempts + 1 < conf.maxAttempts →
              conf.maxCandidates ≤ (rf0.candidatesOnBackoff.length : Int) →
              rf1.candidatesOnBackoff = rf0.candidatesOnBackoff)
          ∧ (cand.obj.numAttempts + 1 < conf.maxAttempts →
              (rf0.candidatesOnBackoff.length : Int) < conf.maxCandidates →
              ∃ t : Int, rf1.candidatesOnBackoff = rf0.candidatesOnBackoff ++
                [{ toCandidate := { cand.obj with numAttempts := cand.obj.numAttempts + 1 },
                   nextConnAttempt := t }]))
    ∧ (∀ (now : Int) (rf0 : relayFinder) (e : ID × candidate),
        e ∈ candidateObjs (checkForCandidatesOnBackoff conf now rf0) →
        e ∈ candidateObjs rf0
          ∨ ∃ b ∈ rf0.candidatesOnBackoff, e = (b.toCandidate.ai.ID, b.toCandidate)) := by
  refine ⟨?_, fun i now r rf0 cand rest hget hk =>
    reserveFailed_effect conf i now r rf0 cand rest hget hk, fun now rf0 e he => ?_⟩
  · have := runSerial_counted conf p hmax as (newRelayFinder boot) rf 0 0 hrun
      (wellFormed_new boot) (by simp [newRelayFinder]) (exclusiveT_new p boot)
      (countedT_new conf.maxAttempts hmax p boot) (by omega)
    simpa using this
  · obtain ⟨_, c2, _⟩ := checkLoop_spec conf now rf0.candidatesOnBackoff rf0 rfl
    have he1 : e ∈ (rf0.candidatesOnBackoff.takeWhile
        (fun e => !decide (e.nextConnAttempt > now))).foldl (reinsertPopped conf)
        (candidateObjs rf0) := by
      rw [← c2]; exact he
    rcases mem_fold_reinsert conf _ _ e he1 with h1 | ⟨b, hb, heq⟩
    · exact Or.inl h1
    · exact Or.inr ⟨b, (List.takeWhile_sublist _).subset hb, heq⟩

/-- C5 (witness): in `retryRun` peer 1 is inserted once and `Reserve` fails for it three
times, with `maxAttempts = 3`. -/
theorem bounded_retries_witness :
    runSerial sampleConf retryRun (newRelayFinder 0) = some givenUpState
    ∧ countSteps (insertsPeer sampleConf 1) sampleConf retryRun (newRelayFinder 0) ≤ 1
    ∧ countSteps (failsPeer 1) sampleConf retryRun (newRelayFinder 0) = 3
    ∧ (countSteps (failsPeer 1) sampleConf retryRun (newRelayFinder 0) : Int)
        ≤ sampleConf.maxAttempts :=
  ⟨by decide, by decide, by decide,
   (bounded_retries sampleConf (by decide) 1 0 retryRun givenUpState (by decide)
      (by decide)).1⟩

end Autorelay
